import Mathlib

/-!
Verification development for the fontc variable-font compiler core.

Shallow embedding conventions used throughout this file:

* Rust `u32`, `usize`, glyph ids and indices are `Nat`; scalar metric and
  coordinate values (`OrderedFloat<f64>` and `OrderedFloat<f32>` in the
  source) are carried opaquely and modelled as `Int` (the claims under
  study compare these values for equality and test them against literal
  defaults, they never exercise float rounding).
* Rust `Option`/`Result` become `Option`/`Except`; a Rust panic
  (`unwrap`, `panic!`, out-of-bounds index) is modelled as `none` or as a
  dedicated error value, as documented at each definition.
* `BTreeMap`/`BTreeSet` become association lists, sorted by key where the
  iteration order is observable; `HashSet`s that are only used for
  membership tests become plain lists.
* Field and function names follow the Rust source (snake_case kept).
-/

namespace Fontc

/-! ### Kernel-computable string primitives

The embeddings close over string splitting and ordering.  The core
library versions (`String.split`, `String.lt`) are implemented with
iterators that do not reduce inside the kernel, so equivalent char-list
versions are defined here. -/

/-- Split a character list at the characters satisfying `p`, keeping
empty segments (the semantics of Rust `str::split`). -/
def splitChars (p : Char → Bool) : List Char → List (List Char)
  | [] => [[]]
  | c :: cs =>
    if p c then [] :: splitChars p cs
    else
      match splitChars p cs with
      | [] => [[c]]
      | w :: ws => (c :: w) :: ws

/-- Split a string at the characters satisfying `p`. -/
def splitString (p : Char → Bool) (s : String) : List String :=
  (splitChars p s.toList).map (fun cs => String.mk cs)

/-- Lexicographic comparison of char lists by code point (the ordering of
Rust `BTreeMap` string keys, restricted to the inputs at hand). -/
def charListLt : List Char → List Char → Bool
  | [], [] => false
  | [], _ :: _ => true
  | _ :: _, [] => false
  | a :: as, b :: bs =>
    if a.toNat = b.toNat then charListLt as bs
    else decide (a.toNat < b.toNat)

/-- String comparison via `charListLt`. -/
def strLt (a b : String) : Bool := charListLt a.toList b.toList

/-- Decidable equality for `Except` results. -/
instance {ε α : Type} [DecidableEq ε] [DecidableEq α] : DecidableEq (Except ε α) :=
  fun a b =>
    match a, b with
    | .ok x, .ok y => if h : x = y then isTrue (by rw [h]) else isFalse (by simp [h])
    | .error x, .error y => if h : x = y then isTrue (by rw [h]) else isFalse (by simp [h])
    | .ok _, .error _ => isFalse (by simp)
    | .error _, .ok _ => isFalse (by simp)

/-! ### Shared ordered-map helpers (model of `BTreeMap` / `BTreeSet`) -/

/-- Insert a key into a sorted, duplicate-free list of strings, keeping it
sorted and duplicate-free.  Models `BTreeSet<String>::insert`. -/
def insertSortedString (k : String) : List String → List String
  | [] => [k]
  | x :: xs =>
    if k = x then x :: xs
    else if strLt k x then k :: x :: xs
    else x :: insertSortedString k xs

/-- Build a sorted duplicate-free list from a list, by repeated insertion.
Models `collect::<BTreeSet<String>>()`. -/
def sortedStringSet (l : List String) : List String :=
  l.foldl (fun acc k => insertSortedString k acc) []

/-- Insert a key into a sorted, duplicate-free list of naturals.  Models
`BTreeSet<GlyphId>::insert`. -/
def insertSortedNat (k : Nat) : List Nat → List Nat
  | [] => [k]
  | x :: xs =>
    if k = x then x :: xs
    else if k < x then k :: x :: xs
    else x :: insertSortedNat k xs

/-- Build a sorted duplicate-free list of naturals from a list.  Models
`collect::<BTreeSet<GlyphId>>()`. -/
def sortedNatSet (l : List Nat) : List Nat :=
  l.foldl (fun acc k => insertSortedNat k acc) []

/-- A `BTreeMap<String, V>`: an association list kept sorted by key. -/
abbrev SMap (V : Type) := List (String × V)

/-- Look a key up in a string-keyed map.  Models `BTreeMap::get`. -/
def SMap.get? {V : Type} (m : SMap V) (k : String) : Option V :=
  (m.find? (fun p => p.1 = k)).map (·.2)

/-- Update the value stored at `k` (inserting `dflt` first when the key is
absent), keeping the list sorted by key.  Models
`BTreeMap::entry(k).or_insert(dflt)` followed by a mutation `f`. -/
def SMap.entryModify {V : Type} (m : SMap V) (k : String) (dflt : V) (f : V → V) : SMap V :=
  match m with
  | [] => [(k, f dflt)]
  | (k', v) :: rest =>
    if k = k' then (k', f v) :: rest
    else if strLt k k' then (k, f dflt) :: (k', v) :: rest
    else (k', v) :: SMap.entryModify rest k dflt f

/-- Update the value stored at `k` only when the key is present.  Models
`BTreeMap::get_mut(k)` followed by a mutation `f`. -/
def SMap.modifyExisting {V : Type} (m : SMap V) (k : String) (f : V → V) : SMap V :=
  match m with
  | [] => []
  | (k', v) :: rest =>
    if k = k' then (k', f v) :: rest
    else (k', v) :: SMap.modifyExisting rest k f

/-! ## glyphs-reader source model (`glyphs-reader/src/font.rs`)

Data carried by `RawFont` that the claims under study exercise. -/

/-- A raw axis entry (`glyphs-reader` `Axis`): display name and tag. -/
structure GRAxis where
  name : String
  tag : String
deriving DecidableEq, Repr

/-- One `Axis Mappings` custom-parameter entry (`AxisMapping`): a tag and
its list of `(user, design)` pairs. -/
structure AxisMapping where
  tag : String
  user_to_design : List (Int × Int)
deriving DecidableEq, Repr

/-- One `Axis Location` custom-parameter entry (`AxisLocation`). -/
structure AxisLocation where
  axis_name : String
  location : Int
deriving DecidableEq, Repr

/-- The custom-parameter values the embedded code inspects
(`CustomParameterValue`, restricted to the variants used here). -/
inductive CustomParameterValue
  | int (i : Int)
  | str (s : String)
  | axes (a : List GRAxis)
  | axesMappings (m : List AxisMapping)
  | axisLocations (l : List AxisLocation)
deriving DecidableEq, Repr

/-- `CustomParameters`: a vector of name/value pairs; lookups return the
first entry with the requested name. -/
abbrev CustomParameters := List (String × CustomParameterValue)

/-- `CustomParameters::get`: first parameter with the given name. -/
def CustomParameters.get (ps : CustomParameters) (name : String) : Option CustomParameterValue :=
  (ps.find? (fun p => p.1 = name)).map (·.2)

/-- `CustomParameters::string`. -/
def CustomParameters.string (ps : CustomParameters) (name : String) : Option String :=
  match ps.get name with
  | some (.str s) => some s
  | _ => none

/-- `CustomParameters::axes` (the `Axes` parameter). -/
def CustomParameters.axesParam (ps : CustomParameters) : Option (List GRAxis) :=
  match ps.get "Axes" with
  | some (.axes a) => some a
  | _ => none

/-- `CustomParameters::axis_mappings` (the `Axis Mappings` parameter). -/
def CustomParameters.axis_mappings (ps : CustomParameters) : Option (List AxisMapping) :=
  match ps.get "Axis Mappings" with
  | some (.axesMappings m) => some m
  | _ => none

/-- `CustomParameters::axis_locations` (the `Axis Location` parameter). -/
def CustomParameters.axis_locations (ps : CustomParameters) : Option (List AxisLocation) :=
  match ps.get "Axis Location" with
  | some (.axisLocations l) => some l
  | _ => none

/-- The fields of `RawFontMaster` exercised by the claims: id, optional
display name, the legacy v2 per-axis value fields, the v3 `axesValues`
array, and the per-master custom parameters. -/
structure RawFontMaster where
  id : String
  name : Option String
  weight_value : Option Int := none
  interpolation_weight : Option Int := none
  width_value : Option Int := none
  interpolation_width : Option Int := none
  custom_value : Option Int := none
  axes_values : List Int := []
  custom_parameters : CustomParameters := []
deriving DecidableEq, Repr

/-- The fields of `RawInstance` exercised by the claims. -/
structure RawInstance where
  name : String
  weight_value : Option Int := none
  interpolation_weight : Option Int := none
  width_value : Option Int := none
  interpolation_width : Option Int := none
  custom_value : Option Int := none
  axes_values : List Int := []
deriving DecidableEq, Repr

/-- The fields of `RawFont` exercised by the claims. -/
structure RawFont where
  format_version : Nat := 2
  axes : List GRAxis := []
  font_master : List RawFontMaster := []
  instances : List RawInstance := []
  custom_parameters : CustomParameters := []
deriving DecidableEq, Repr

/-- Errors of the glyphs-reader (`glyphs_reader::error::Error`), restricted
to the variants reachable from the embedded code. -/
inductive GRError
  | structuralError (msg : String)
deriving DecidableEq, Repr

/-! ### Codepoint decoding (claim C10) -/

/-- Value of one char as a digit, any radix up to 36; models the digit
handling of Rust `u32::from_str_radix`. -/
def digitVal (c : Char) : Option Nat :=
  if '0' ≤ c ∧ c ≤ '9' then some (c.toNat - '0'.toNat)
  else if 'a' ≤ c ∧ c ≤ 'z' then some (c.toNat - 'a'.toNat + 10)
  else if 'A' ≤ c ∧ c ≤ 'Z' then some (c.toNat - 'A'.toNat + 10)
  else none

/-- Model of Rust `u32::from_str_radix`: optional leading `+`, at least one
digit, every digit below the radix, result below `2 ^ 32`.  `none` models
every `Err` case (empty string, invalid digit, overflow). -/
def u32_from_str_radix (s : String) (radix : Nat) : Option Nat :=
  let chars := match s.toList with
    | '+' :: rest => rest
    | cs => cs
  if chars.isEmpty then none
  else
    chars.foldlM
      (fun acc c => do
        let d ← digitVal c
        if d < radix then
          let v := acc * radix + d
          if v < 2 ^ 32 then some v else none
        else none)
      0

/-- `parse_codepoint_str` (`font.rs:1572`): split the `unicode` string on
commas and parse every entry with `u32::from_str_radix(_, radix).unwrap()`,
collecting into a `BTreeSet`.  The Rust code unwraps, so a single invalid
entry panics; the panic is modelled as `none`. -/
def parse_codepoint_str (s : String) (radix : Nat) : Option (List Nat) :=
  ((splitString (fun c => c = ',') s).mapM (fun cp => u32_from_str_radix cp radix)).map
    sortedNatSet

/-- Radix used for `RawGlyph::build` (`font.rs:2240`): hex for Glyphs v2
(`format_version < 3`, see `RawFont::is_v2`), decimal for v3. -/
def codepoint_radix (format_version : Nat) : Nat :=
  if format_version < 3 then 16 else 10

/-! ### Default-master selection (claim C3) -/

/-- `whitespace_separated_tokens` (`font.rs:1644`): Rust
`split_whitespace`, i.e. split on whitespace discarding empty tokens. -/
def whitespace_separated_tokens (s : String) : List String :=
  (splitString Char.isWhitespace s).filter (fun w => w ≠ "")

/-- The selection loop at the end of `default_master_idx`
(`font.rs:1626-1641`): an exact match of the common words wins immediately
(`break`); a match after deleting `Regular` sets `best_idx` but keeps
scanning (so a later such match overwrites an earlier one). -/
def best_idx_loop (common : List String) (best : Nat) :
    List (Nat × List String) → Nat
  | [] => best
  | (idx, words) :: rest =>
    if common = words then idx
    else if common = words.filter (fun w => w ≠ "Regular") then
      best_idx_loop common idx rest
    else
      best_idx_loop common best rest

/-- `default_master_idx` (`font.rs:1579`): explicit `Variable Font Origin`
first; otherwise compare master-name token lists against the tokens common
to all named masters. -/
def default_master_idx (raw_font : RawFont) : Nat :=
  match (raw_font.custom_parameters.string "Variable Font Origin").bind
      (fun origin => raw_font.font_master.findIdx? (fun m => m.id = origin)) with
  | some master_idx => master_idx
  | none =>
    let contenders := (raw_font.font_master.enum).filterMap
      (fun p => p.2.name.map (fun name => (p.1, whitespace_separated_tokens name)))
    match contenders with
    | [] => 0
    | c0 :: rest =>
      let common_words := rest.foldl
        (fun cw p => cw.filter (fun w => w ∈ p.2)) c0.2
      best_idx_loop common_words 0 contenders

/-- Reference form of the selection loop: the first contender whose token
list equals the common words exactly, else the last contender whose token
list equals them after deleting `Regular`, else index 0. -/
def first_exact_idx (common : List String) : List (Nat × List String) → Option Nat
  | [] => none
  | (idx, words) :: rest =>
    if common = words then some idx else first_exact_idx common rest

/-- Last contender matching the common words after `Regular` removal. -/
def last_regular_idx (common : List String) : List (Nat × List String) → Option Nat
  | [] => none
  | (idx, words) :: rest =>
    match last_regular_idx common rest with
    | some j => some j
    | none =>
      if common = words.filter (fun w => w ≠ "Regular") then some idx else none

/-! ### Glyphs v2 axes lift (claim C5) -/

/-- The legacy per-axis value fields shared by `RawFontMaster` and
`RawInstance` (the `GlyphsV2OrderedAxes` trait getters). -/
structure V2AxisFields where
  weight_value : Option Int
  interpolation_weight : Option Int
  width_value : Option Int
  interpolation_width : Option Int
  custom_value : Option Int
deriving DecidableEq, Repr

/-- The trait impl for `RawFontMaster`. -/
def RawFontMaster.v2_fields (m : RawFontMaster) : V2AxisFields :=
  ⟨m.weight_value, m.interpolation_weight, m.width_value, m.interpolation_width, m.custom_value⟩

/-- The trait impl for `RawInstance`. -/
def RawInstance.v2_fields (i : RawInstance) : V2AxisFields :=
  ⟨i.weight_value, i.interpolation_weight, i.width_value, i.interpolation_width, i.custom_value⟩

/-- `GlyphsV2OrderedAxes::value_for_nth_axis` (`font.rs:1054`): the nth
axis reads the nth legacy field pair, with defaults 100, 100, 0; axes past
the third are a structural error. -/
def value_for_nth_axis (f : V2AxisFields) (nth_axis : Nat) : Except GRError Int :=
  match nth_axis with
  | 0 => .ok ((f.weight_value.or f.interpolation_weight).getD 100)
  | 1 => .ok ((f.width_value.or f.interpolation_width).getD 100)
  | 2 => .ok (f.custom_value.getD 0)
  | _ => .error (.structuralError "We don't know what field to use for this axis")

/-- `GlyphsV2OrderedAxes::axis_values` (`font.rs:1078`): one value per
axis of the font. -/
def axis_values (f : V2AxisFields) (axes : List GRAxis) : Except GRError (List Int) :=
  (List.range axes.length).mapM (value_for_nth_axis f)

/-- The three default axes pushed by `v2_to_v3_axes` when the font has
none (`font.rs:1271-1287`). -/
def default_v2_axes : List GRAxis :=
  [⟨"Weight", "wght"⟩, ⟨"Width", "wdth"⟩, ⟨"Custom", "XXXX"⟩]

/-- `RawFont::v2_to_v3_axes` (`font.rs:1260`).  The Rust method mutates
`self` and returns the tags of any explicit `Axes` custom parameter; the
embedding returns the updated font together with those tags. -/
def v2_to_v3_axes (raw : RawFont) : Except GRError (RawFont × List String) := do
  let tags : List String :=
    match raw.custom_parameters.axesParam with
    | some v2_axes => v2_axes.map (·.tag)
    | none => []
  let axes : List GRAxis :=
    match raw.custom_parameters.axesParam with
    | some v2_axes => raw.axes ++ v2_axes
    | none => raw.axes
  let axes := if axes.isEmpty then axes ++ default_v2_axes else axes
  if axes.length > 3 then
    .error (.structuralError "We only understand 0..3 axes for Glyphs v2")
  else do
    let font_master ← raw.font_master.mapM (fun (m : RawFontMaster) => do
      let vs ← axis_values m.v2_fields axes
      pure { m with axes_values := vs })
    let instances ← raw.instances.mapM (fun (i : RawInstance) => do
      let vs ← axis_values i.v2_fields axes
      pure { i with axes_values := vs })
    pure ({ raw with axes := axes, font_master := font_master, instances := instances }, tags)

/-! ### User-to-design mapping resolution (claim C6) -/

/-- `RawAxisUserToDesignMap`: the ordered list of `(user, design)` pairs
for one axis. -/
structure RawAxisUserToDesignMap where
  pairs : List (Int × Int)
deriving DecidableEq, Repr

/-- `RawAxisUserToDesignMap::add_if_new` (`font.rs:1727`): skip the pair
when its user or its design value is already present. -/
def RawAxisUserToDesignMap.add_if_new (m : RawAxisUserToDesignMap) (user design : Int) :
    RawAxisUserToDesignMap :=
  if m.pairs.any (fun p => p.1 = user ∨ p.2 = design) then m
  else ⟨m.pairs ++ [(user, design)]⟩

/-- `RawAxisUserToDesignMap::add_any_new` (`font.rs:1721`). -/
def RawAxisUserToDesignMap.add_any_new (m incoming : RawAxisUserToDesignMap) :
    RawAxisUserToDesignMap :=
  incoming.pairs.foldl (fun acc p => acc.add_if_new p.1 p.2) m

/-- `axis_index` (`font.rs:1648`): index of the first axis satisfying the
predicate. -/
def axis_index (from_ : RawFont) (pred : GRAxis → Bool) : Option Nat :=
  from_.axes.findIdx? pred

/-- `user_to_design_from_axis_mapping` (`font.rs:1655`): fold the explicit
`Axis Mappings` parameter into a map keyed by axis display name; entries
whose tag is not an axis of the font are skipped with a warning. -/
def user_to_design_from_axis_mapping (from_ : RawFont) :
    Option (SMap RawAxisUserToDesignMap) :=
  (from_.custom_parameters.axis_mappings).map (fun mappings =>
    mappings.foldl
      (fun acc mapping =>
        match axis_index from_ (fun a => a.tag = mapping.tag) with
        | none => acc
        | some idx =>
          let axis_name := ((from_.axes.get? idx).map (·.name)).getD ""
          mapping.user_to_design.foldl
            (fun acc p =>
              SMap.entryModify acc axis_name ⟨[]⟩ (fun m => m.add_if_new p.1 p.2))
            acc)
      [])

/-- `user_to_design_from_axis_location` (`font.rs:1681`): only trusted
when every master carries an `Axis Location` parameter.  An axis name that
resolves to no axis of the font panics in Rust; the panic is modelled as
`Except.error`.  The `ok none` result models the Rust `None` return. -/
def user_to_design_from_axis_location (from_ : RawFont) :
    Except Unit (Option (SMap RawAxisUserToDesignMap)) := do
  let master_locations := from_.font_master.filterMap (fun m => m.custom_parameters.axis_locations)
  if master_locations.length ≠ from_.font_master.length then
    pure none
  else do
    let result ← (from_.font_master.zip master_locations).foldlM
      (fun acc p => do
        let (master, axis_locations) := p
        axis_locations.foldlM
          (fun acc axis_location => do
            match axis_index from_ (fun a => a.name = axis_location.axis_name) with
            | none => .error ()
            | some axis_idx =>
              match master.axes_values.get? axis_idx with
              | none => .error ()
              | some design =>
                pure (SMap.entryModify acc axis_location.axis_name ⟨[]⟩
                  (fun m => m.add_if_new axis_location.location design)))
          acc)
      ([] : SMap RawAxisUserToDesignMap)
    pure (some result)

/-- `InstanceType` (only `Single` participates in mappings). -/
inductive InstanceType
  | single
  | variable_
deriving DecidableEq, Repr

/-- The fields of the processed `Instance` used by
`add_instance_mappings_if_new`. -/
structure Instance where
  active : Bool
  type_ : InstanceType
  axis_mappings : SMap RawAxisUserToDesignMap
deriving DecidableEq, Repr

/-- `RawUserToDesignMapping`: axis display name to mapping. -/
structure RawUserToDesignMapping where
  map : SMap RawAxisUserToDesignMap
deriving DecidableEq, Repr

/-- `add_instance_mappings_if_new` (`font.rs:1777`): merge the mappings of
active single instances, keeping only pairs with new user and design. -/
def add_instance_mappings_if_new (m : SMap RawAxisUserToDesignMap) (instances : List Instance) :
    SMap RawAxisUserToDesignMap :=
  (instances.filter (fun i => i.active ∧ i.type_ = .single)).foldl
    (fun acc instance_ =>
      instance_.axis_mappings.foldl
        (fun acc p =>
          SMap.entryModify acc p.1 ⟨[]⟩ (fun m => m.add_any_new p.2))
        acc)
    m

/-- `add_master_mappings_if_new` (`font.rs:1791`): every master design
coordinate becomes an identity pair unless its user or design value is
already mapped. -/
def add_master_mappings_if_new (m : SMap RawAxisUserToDesignMap) (from_ : RawFont) :
    SMap RawAxisUserToDesignMap :=
  from_.font_master.foldl
    (fun acc master =>
      (from_.axes.zip master.axes_values).foldl
        (fun acc p =>
          SMap.entryModify acc p.1.name ⟨[]⟩ (fun m => m.add_if_new p.2 p.2))
        acc)
    m

/-- `RawUserToDesignMapping::new` (`font.rs:1747`): Axis Mappings beat
Axis Location; instance mappings are merged whenever Axis Mappings is
absent; master design coordinates are appended last.  The `Except` layer
propagates the panic of `user_to_design_from_axis_location`, which Rust
evaluates eagerly before choosing a branch. -/
def RawUserToDesignMapping.new (from_ : RawFont) (instances : List Instance) :
    Except Unit RawUserToDesignMapping := do
  let from_axis_mapping := user_to_design_from_axis_mapping from_
  let from_axis_location ← user_to_design_from_axis_location from_
  let (result, add_instance_mappings) :=
    match from_axis_mapping, from_axis_location with
    | some from_mapping, some _ => (from_mapping, false)
    | some from_mapping, none => (from_mapping, false)
    | none, some from_location => (from_location, true)
    | none, none => ([], true)
  let result :=
    if add_instance_mappings then add_instance_mappings_if_new result instances
    else result
  pure ⟨add_master_mappings_if_new result from_⟩

/-! ## Variation solver (spec model)

`resolve_variable_metric` lives in `fontbe/src/features/mod.rs`, which is
not among the provided sources; only its callers are.  It is therefore
modelled from the spec, section 4.2. -/

/-- A design-space location, carried opaquely (the callers never look
inside; they only pass locations through and compare them). -/
abbrev Loc := String

/-- Backend errors (`fontbe::error::Error`), restricted to the variants
reachable from the embedded code. -/
inductive BEError
  | missingGlyphId (name : String)
  | deltaError
  | anchorDeltaError (glyph_name : String)
deriving DecidableEq, Repr

/-- Modelled from the spec: `resolve_variable_metric`
(`fontbe/src/features/mod.rs`, not under the provided sources).  Spec 4.2:
the default output is the default master value; every other sample
contributes a delta `sample - interpolated_default` tied to its location
(the interpolated default at a master location is the default value); if
all deltas are zero the output is `(default, [])`.  A sample set without
the default location is a variation error. -/
def resolve_variable_metric (default_loc : Loc) (values : List (Loc × Int)) :
    Except Unit (Int × List (Loc × Int)) :=
  match values.lookup default_loc with
  | none => .error ()
  | some dflt =>
    let deltas := (values.filter (fun p => p.1 ≠ default_loc)).map
      (fun p => (p.1, p.2 - dflt))
    .ok (dflt, if deltas.all (fun d => d.2 = 0) then [] else deltas)

/-! ## fontbe mark generation (`fontbe/src/features/marks.rs`)

Claims C2, C7 and C8. -/

/-- `write_fonts` `GlyphClassDef` (the variants, minus `Unknown` which the
callers never store). -/
inductive GlyphClassDef
  | base
  | ligature
  | mark
  | component
deriving DecidableEq, Repr

/-- `fontir::ir::AnchorKind`.  `other` stands for the remaining variants
(cursive entry/exit, carets, component markers), which the mark code
skips. -/
inductive AnchorKind
  | base (group : String)
  | mark (group : String)
  | ligature (group_name : String) (index : Nat)
  | other
deriving DecidableEq, Repr

/-- `fontir::ir::Anchor`: a kind plus per-location positions.  `fontir` is
not among the provided sources; the positions map is modelled as an
association list from location to point, and the two accessors below are
modelled from the spec (section 3, Anchor). -/
structure IRAnchor where
  kind : AnchorKind
  positions : List (Loc × Int × Int) := []
deriving DecidableEq, Repr

/-- Modelled from the spec: `Anchor::mark_group_name` (`fontir`, not under
the provided sources): the attachment-group name of a base, mark or
ligature anchor. -/
def IRAnchor.mark_group_name (a : IRAnchor) : Option String :=
  match a.kind with
  | .base group => some group
  | .mark group => some group
  | .ligature group _ => some group
  | .other => none

/-- Modelled from the spec: `Anchor::is_mark` (`fontir`, not under the
provided sources). -/
def IRAnchor.is_mark (a : IRAnchor) : Bool :=
  match a.kind with
  | .mark _ => true
  | _ => false

/-- `fontir::ir::GlyphAnchors`: all anchors of one glyph. -/
structure GlyphAnchors where
  glyph_name : String
  anchors : List IRAnchor
deriving DecidableEq, Repr

/-- `GlyphOrder`: the final ordered list of glyph names. -/
abbrev GlyphOrder := List String

/-- `GlyphOrder::glyph_id`: position in the order. -/
def GlyphOrder.glyph_id (order : GlyphOrder) (name : String) : Option Nat :=
  order.findIdx? (fun n => n = name)

/-- `GlyphOrder::contains`. -/
def GlyphOrder.containsName (order : GlyphOrder) (name : String) : Bool :=
  order.contains name

/-- A `fea_rs::compile::Anchor` as built by `resolve_anchor`: defaults for
x and y plus the optional device (variation) deltas attached by
`with_x_device` / `with_y_device`. -/
structure FeaAnchor where
  x : Int
  y : Int
  x_device : Option (List (Loc × Int)) := none
  y_device : Option (List (Loc × Int)) := none
deriving DecidableEq, Repr

/-- `resolve_anchor` (`marks.rs:408`): unzip the positions into x and y
sample lists, run the variation solver independently on each, and attach
a device only when some delta component is nonzero. -/
def resolve_anchor (default_loc : Loc) (anchor : IRAnchor) (glyph_name : String) :
    Except BEError FeaAnchor := do
  let x_values := anchor.positions.map (fun p => (p.1, p.2.1))
  let y_values := anchor.positions.map (fun p => (p.1, p.2.2))
  let xr ← (resolve_variable_metric default_loc x_values).mapError
    (fun _ => BEError.anchorDeltaError glyph_name)
  let yr ← (resolve_variable_metric default_loc y_values).mapError
    (fun _ => BEError.anchorDeltaError glyph_name)
  let (x_default, x_deltas) := xr
  let (y_default, y_deltas) := yr
  let a : FeaAnchor := { x := x_default, y := y_default }
  let a := if x_deltas.any (fun v => v.2 ≠ 0) then { a with x_device := some x_deltas } else a
  let a := if y_deltas.any (fun v => v.2 ≠ 0) then { a with y_device := some y_deltas } else a
  pure a

/-- The bases and marks of one attachment group (`MarkGroup`). -/
structure MarkGroup where
  bases : List (String × IRAnchor) := []
  marks : List (String × IRAnchor) := []
  filter_glyphs : Bool := false
deriving DecidableEq, Repr

/-- `MarkGroup::make_filter_glyph_set` (`marks.rs:69`): the gids of the
marks of the group, as a `GlyphSet`, only when `filter_glyphs` is set.
The Rust unwrap cannot fail (marks were pruned to the glyph order); it is
modelled as `getD 0`. -/
def MarkGroup.make_filter_glyph_set (g : MarkGroup) (glyph_order : GlyphOrder) :
    Option (List Nat) :=
  if g.filter_glyphs then
    some (sortedNatSet (g.marks.map (fun m => (glyph_order.glyph_id m.1).getD 0)))
  else none

/-- The state assembled by `MarkLookupBuilder::new` (the fields the claims
exercise; the feature AST is reduced to the gdef classes it yields, see
`get_gdef_classes`). -/
structure MarkLookupBuilder where
  gdef_classes : SMap GlyphClassDef
  anchor_lists : SMap (List IRAnchor)
  glyph_order : GlyphOrder
  default_loc : Loc
  mark_glyphs : List String
deriving DecidableEq, Repr

/-- The `include` set of `MarkLookupBuilder::new` (`marks.rs:121`): names
whose gdef class is base, mark or ligature. -/
def include_set (gdef_classes : SMap GlyphClassDef) : List String :=
  gdef_classes.filterMap (fun p =>
    if p.2 = .base ∨ p.2 = .mark ∨ p.2 = .ligature then some p.1 else none)

/-- One anchor of the pruning loop of `MarkLookupBuilder::new`
(`marks.rs:140-158`): base and ligature anchors record their group on the
base side, mark anchors on the mark side, and the anchor is appended to
the entry of its glyph; other anchor kinds are skipped. -/
def prune_anchor (glyph_name : String)
    (acc : SMap (List IRAnchor) × List String × List String) (anchor : IRAnchor) :
    SMap (List IRAnchor) × List String × List String :=
  let (pruned, base_groups, mark_groups) := acc
  match anchor.kind with
  | .base group =>
    (SMap.entryModify pruned glyph_name [] (fun l => l ++ [anchor]),
      base_groups ++ [group], mark_groups)
  | .ligature group _ =>
    (SMap.entryModify pruned glyph_name [] (fun l => l ++ [anchor]),
      base_groups ++ [group], mark_groups)
  | .mark group =>
    (SMap.entryModify pruned glyph_name [] (fun l => l ++ [anchor]),
      base_groups, mark_groups ++ [group])
  | .other => acc

/-- One glyph of the pruning loop (`marks.rs:131-139`): glyphs outside
the glyph order, or outside a non-empty include set, are skipped. -/
def prune_glyph (glyph_order : GlyphOrder) (incl : List String)
    (acc : SMap (List IRAnchor) × List String × List String) (ga : GlyphAnchors) :
    SMap (List IRAnchor) × List String × List String :=
  if ¬ glyph_order.containsName ga.glyph_name then acc
  else if ¬ incl.isEmpty ∧ ¬ incl.contains ga.glyph_name then acc
  else ga.anchors.foldl (prune_anchor ga.glyph_name) acc

/-- First pruning loop of `MarkLookupBuilder::new` (`marks.rs:131-159`):
keep base/mark/ligature anchors of glyphs that are in the glyph order and
(when the include set is non-empty) in the include set, recording the
groups seen on the base side and on the mark side. -/
def prune_pass (glyph_order : GlyphOrder) (incl : List String)
    (anchors : List GlyphAnchors) :
    SMap (List IRAnchor) × List String × List String :=
  anchors.foldl (prune_glyph glyph_order incl) ([], [], [])

/-- `find_mark_glyphs` (`marks.rs:349`): glyphs with a declared `Mark`
gdef class (only when any class is declared) and at least one mark
anchor. -/
def find_mark_glyphs (anchors : SMap (List IRAnchor)) (gdef_classes : SMap GlyphClassDef) :
    List String :=
  (anchors.filter (fun p =>
      (¬ gdef_classes.isEmpty ∧ SMap.get? gdef_classes p.1 = some .mark)
        ∧ p.2.any (fun a => a.is_mark))).map (·.1)

/-- `MarkLookupBuilder::new` (`marks.rs:108`): prune the anchors, retain
only groups used on both sides, and identify the mark glyphs. -/
def MarkLookupBuilder.new (anchors : List GlyphAnchors) (glyph_order : GlyphOrder)
    (default_loc : Loc) (gdef_classes : SMap GlyphClassDef) : MarkLookupBuilder :=
  let incl := include_set gdef_classes
  let (pruned, base_groups, mark_groups) := prune_pass glyph_order incl anchors
  let used_groups := base_groups.filter (fun g => mark_groups.contains g)
  let pruned := (pruned.map (fun p =>
      (p.1, p.2.filter (fun anchor =>
        match anchor.mark_group_name with
        | some group => used_groups.contains group
        | none => false)))).filter
    (fun p => ¬ p.2.isEmpty)
  let mark_glyphs := find_mark_glyphs pruned gdef_classes
  { gdef_classes := gdef_classes
    anchor_lists := pruned
    glyph_order := glyph_order
    default_loc := default_loc
    mark_glyphs := mark_glyphs }

/-- `make_mark_to_base_groups` (`marks.rs:229`). -/
def MarkLookupBuilder.make_mark_to_base_groups (b : MarkLookupBuilder) : SMap MarkGroup :=
  b.anchor_lists.foldl
    (fun groups p =>
      let (glyph_name, anchors) := p
      let is_mark := b.mark_glyphs.contains glyph_name
      let is_not_base := ¬ b.gdef_classes.isEmpty ∧
        SMap.get? b.gdef_classes glyph_name ≠ some .base
      let treat_as_base := ¬ (is_mark ∨ is_not_base)
      anchors.foldl
        (fun groups anchor =>
          match anchor.kind with
          | .base group =>
            if treat_as_base then
              SMap.entryModify groups group {}
                (fun g => { g with bases := g.bases ++ [(glyph_name, anchor)] })
            else groups
          | .mark group =>
            if is_mark then
              SMap.entryModify groups group {}
                (fun g => { g with marks := g.marks ++ [(glyph_name, anchor)] })
            else groups
          | _ => groups)
        groups)
    []

/-- `make_mark_to_mark_groups` (`marks.rs:257`).  The first pass collects,
over the pruned anchor lists, the mark glyphs (those in `mark_glyphs` with
a mark anchor) and the groups of their mark anchors, both as `BTreeSet`s;
the second pass adds, for every mark glyph, its base anchors whose group
has some mark anchor; the third adds the mark anchors of groups that
gained a base. -/
def MarkLookupBuilder.make_mark_to_mark_groups (b : MarkLookupBuilder) : SMap MarkGroup :=
  let pairs := b.anchor_lists.foldl
    (fun (acc : List (String × String)) p =>
      if b.mark_glyphs.contains p.1 then
        acc ++ p.2.filterMap (fun anchor =>
          match anchor.kind with
          | .mark group => some (p.1, group)
          | _ => none)
      else acc)
    []
  let mark_glyphs := sortedStringSet (pairs.map (·.1))
  let mark_anchors := sortedStringSet (pairs.map (·.2))
  let result := b.anchor_lists.foldl
    (fun result p =>
      let (glyph, glyph_anchors) := p
      if ¬ mark_glyphs.contains glyph then result
      else
        glyph_anchors.foldl
          (fun result anchor =>
            match anchor.kind with
            | .base group_name =>
              if mark_anchors.contains group_name then
                SMap.entryModify result group_name {}
                  (fun g => { g with filter_glyphs := true,
                                     bases := g.bases ++ [(glyph, anchor)] })
              else result
            | _ => result)
          result)
    ([] : SMap MarkGroup)
  mark_glyphs.foldl
    (fun result mark =>
      let anchors := (SMap.get? b.anchor_lists mark).getD []
      anchors.foldl
        (fun result anchor =>
          match anchor.kind with
          | .mark group =>
            SMap.modifyExisting result group
              (fun g => { g with marks := g.marks ++ [(mark, anchor)] })
          | _ => result)
        result)
    result

/-- A `PendingLookup` over a mark-attachment builder.  The fea-rs builders
(`MarkToBaseBuilder`, `MarkToMarkBuilder`) are external to the sources;
following spec 4.4 (Output), a pending lookup is modelled as the recorded
sequences of `add_mark` / `add_base` calls plus the lookup flags (of which
only the `useMarkFilteringSet` bit is touched) and the filter set. -/
structure PendingLookup where
  marks : List (Nat × String × FeaAnchor) := []
  bases : List (Nat × String × FeaAnchor) := []
  use_mark_filtering_set : Bool := false
  filter_set : Option (List Nat) := none
deriving DecidableEq, Repr

/-- `make_lookups` (`marks.rs:200`): drop one-sided groups, then for each
group resolve every anchor and record the builder calls; the
`useMarkFilteringSet` flag is set exactly when a filter set was made. -/
def MarkLookupBuilder.make_lookups (b : MarkLookupBuilder) (groups : SMap MarkGroup) :
    Except BEError (List PendingLookup) :=
  (groups.filter (fun p => ¬ (p.2.bases.isEmpty ∨ p.2.marks.isEmpty))).mapM
    (fun p => do
      let (group_name, group) := p
      let filter_set := group.make_filter_glyph_set b.glyph_order
      let flags := filter_set.isSome
      let marks ← group.marks.mapM (fun m => do
        let gid := (b.glyph_order.glyph_id m.1).getD 0
        let anchor ← resolve_anchor b.default_loc m.2 m.1
        pure (gid, group_name, anchor))
      let bases ← group.bases.mapM (fun m => do
        let gid := (b.glyph_order.glyph_id m.1).getD 0
        let anchor ← resolve_anchor b.default_loc m.2 m.1
        pure (gid, group_name, anchor))
      pure { marks := marks, bases := bases,
             use_mark_filtering_set := flags, filter_set := filter_set })

/-- `MarkLookupBuilder::build` restricted to the mark-to-mark half
(`marks.rs:187-198`). -/
def MarkLookupBuilder.mark_mark_lookups (b : MarkLookupBuilder) :
    Except BEError (List PendingLookup) :=
  b.make_lookups b.make_mark_to_mark_groups

/-! ## fontbe kerning (`fontbe/src/kern.rs`), claim C4 -/

/-- `fontir::ir::KernParticipant`. -/
inductive KernParticipant
  | glyph (name : String)
  | group (name : String)
deriving DecidableEq, Repr

/-- The parts of `fontir::ir::Kerning` the work reads: groups (name to
glyph-name set) and kern values per participant pair per location. -/
structure KerningIR where
  groups : SMap (List String)
  kerns : List ((KernParticipant × KernParticipant) × List (Loc × Int))
deriving DecidableEq, Repr

/-- The `Kerning` output object (`fontbe::orchestration::Kerning`): the
interned delta sets plus the pair and class rules added to it. -/
structure KerningOut where
  deltas : List (List (Loc × Int)) := []
  pairs : List (Nat × Int × Nat × Option Nat) := []
  classes : List (List Nat × Int × List Nat × Option Nat) := []
deriving DecidableEq, Repr

/-- The `gid` closure of `KerningWork::exec` (`kern.rs:41`): resolve a
directly referenced glyph name or fail with `MissingGlyphId`. -/
def kern_gid (glyph_order : GlyphOrder) (name : String) : Except BEError Nat :=
  match glyph_order.glyph_id name with
  | some g => .ok g
  | none => .error (.missingGlyphId name)

/-- Processing of one kern entry inside the loop of `KerningWork::exec`
(`kern.rs:66-121`): resolve the values, intern the deltas, then add pair
or class rules depending on the participants.  The state threads the
`delta_indices` cache and the `Kerning` being built. -/
def kern_add_entry (glyph_order : GlyphOrder) (default_loc : Loc)
    (glyph_classes : SMap (List Nat))
    (st : List (List (Loc × Int) × Nat) × KerningOut)
    (entry : (KernParticipant × KernParticipant) × List (Loc × Int)) :
    Except BEError (List (List (Loc × Int) × Nat) × KerningOut) := do
  let ((left, right), values) := entry
  let (delta_indices, kerning) := st
  let r ← (resolve_variable_metric default_loc values).mapError (fun _ => BEError.deltaError)
  let (default_value, deltas) := r
  let (delta_idx, delta_indices, kerning) :=
    if deltas.isEmpty then (none, delta_indices, kerning)
    else
      match delta_indices.lookup deltas with
      | some idx => (some idx, delta_indices, kerning)
      | none =>
        let idx := kerning.deltas.length
        (some idx, (deltas, idx) :: delta_indices,
          { kerning with deltas := kerning.deltas ++ [deltas] })
  match left, right with
  | .glyph left, .glyph right => do
    let gid0 ← kern_gid glyph_order left
    let gid1 ← kern_gid glyph_order right
    pure (delta_indices,
      { kerning with pairs := kerning.pairs ++ [(gid0, default_value, gid1, delta_idx)] })
  | .group left, .group right => do
    match SMap.get? glyph_classes left with
    | none => .error (.missingGlyphId left)
    | some lcls =>
      match SMap.get? glyph_classes right with
      | none => .error (.missingGlyphId right)
      | some rcls =>
        pure (delta_indices,
          { kerning with classes :=
              kerning.classes ++ [(lcls, default_value, rcls, delta_idx)] })
  | .glyph left, .group right => do
    let gid0 ← kern_gid glyph_order left
    match SMap.get? glyph_classes right with
    | none => .error (.missingGlyphId right)
    | some rcls =>
      pure (delta_indices,
        { kerning with pairs :=
            kerning.pairs ++ rcls.map (fun gid1 => (gid0, default_value, gid1, delta_idx)) })
  | .group left, .glyph right => do
    match SMap.get? glyph_classes left with
    | none => .error (.missingGlyphId left)
    | some lcls => do
      let gid1 ← kern_gid glyph_order right
      pure (delta_indices,
        { kerning with pairs :=
            kerning.pairs ++ lcls.map (fun gid0 => (gid0, default_value, gid1, delta_idx)) })

/-- `KerningWork::exec` (`kern.rs:37`).  Note `kern.rs:56`: glyph names
inside a kerning group resolve with `unwrap_or(0)`, so a group member
absent from the glyph order silently becomes glyph id 0. -/
def kerning_work_exec (glyph_order : GlyphOrder) (default_loc : Loc) (ir : KerningIR) :
    Except BEError KerningOut := do
  let glyph_classes : SMap (List Nat) :=
    ir.groups.map (fun p => (p.1, p.2.map (fun g => (glyph_order.glyph_id g).getD 0)))
  let st ← ir.kerns.foldlM (kern_add_entry glyph_order default_loc glyph_classes)
    (([], {}) : List (List (Loc × Int) × Nat) × KerningOut)
  pure st.2

/-! ## layout-normalizer mark rules (`layout-normalizer/src/gpos/marks.rs`)

Claim C1.  A `MarkBasePosFormat1` / `MarkMarkPosFormat1` subtable is
modelled with its parallel arrays paired up: the mark coverage and mark
array become one list of mark records (gid, class, anchor), the base
coverage and base array one list of base records (gid, per-class optional
anchors).  Anchors are already resolved points (`ResolvedAnchor` with no
delta computer). -/

/-- One mark record together with its covered glyph
(`MarkRecord` + `mark_coverage` entry at the same index). -/
structure NMarkRecord where
  gid : Nat
  cls : Nat
  anchor : Int × Int
deriving DecidableEq, Repr

/-- One base record together with its covered glyph
(`BaseRecord` + `base_coverage` entry at the same index); `anchors` is
indexed by mark class, `none` for a null anchor offset. -/
structure NBaseRecord where
  gid : Nat
  anchors : List (Option (Int × Int))
deriving DecidableEq, Repr

/-- A mark-attachment subtable (both `MarkBasePosFormat1` and
`MarkMarkPosFormat1` have this shape; for mark-to-mark the bases are the
mark2 records). -/
structure NSubtable where
  marks : List NMarkRecord
  bases : List NBaseRecord
deriving DecidableEq, Repr

/-- `LookupType` restricted to the two mark-attachment kinds. -/
inductive NLookupType
  | markToBase
  | markToMark
deriving DecidableEq, Repr

/-- `MarkAttachmentRule`: one base glyph and anchor with the marks
attaching to it.  The `marks` BTreeMap groups mark glyphs by anchor for
printing; the grouping is order-irrelevant for the properties at stake,
so it is kept as the list of `(anchor, mark gid)` entries in insertion
order. -/
structure NRule where
  kind : NLookupType
  base : Nat
  base_anchor : Int × Int
  marks : List ((Int × Int) × Nat)
  filter_set : Option Nat
deriving DecidableEq, Repr

/-- The seen-set of `(base_gid, mark_gid)` pairs shared by all subtables
of one lookup. -/
abbrev NSeen := List (Nat × Nat)

/-- Inner mark loop of `append_mark_base_rules` (`marks.rs:109-129`): for
one base glyph and one base-anchor index, collect the marks of that class
not yet seen, inserting each into the seen-set. -/
def collect_marks (b : Nat) (ix : Nat) :
    List NMarkRecord → NSeen → List ((Int × Int) × Nat) × NSeen
  | [], seen => ([], seen)
  | mr :: rest, seen =>
    if mr.cls = ix then
      if (b, mr.gid) ∈ seen then collect_marks b ix rest seen
      else
        let (ms, seen') := collect_marks b ix rest ((b, mr.gid) :: seen)
        ((mr.anchor, mr.gid) :: ms, seen')
    else collect_marks b ix rest seen

/-- Base-anchor loop of `append_mark_base_rules` (`marks.rs:98-142`): each
non-null base anchor yields one rule (even when no marks attach). -/
def process_anchors (kind : NLookupType) (filter_set : Option Nat)
    (marks : List NMarkRecord) (b : Nat) :
    List (Option (Int × Int)) → Nat → NSeen → List NRule × NSeen
  | [], _, seen => ([], seen)
  | none :: rest, ix, seen => process_anchors kind filter_set marks b rest (ix + 1) seen
  | some a :: rest, ix, seen =>
    let (ms, seen1) := collect_marks b ix marks seen
    let rule : NRule :=
      { kind := kind, base := b, base_anchor := a, marks := ms, filter_set := filter_set }
    let (rs, seen2) := process_anchors kind filter_set marks b rest (ix + 1) seen1
    (rule :: rs, seen2)

/-- `append_mark_base_rules` / `append_mark_mark_rules` for one subtable:
iterate the covered base glyphs and their anchors. -/
def append_mark_rules (kind : NLookupType) (filter_set : Option Nat) (sub : NSubtable) :
    List NBaseRecord → NSeen → List NRule × NSeen
  | [], seen => ([], seen)
  | br :: rest, seen =>
    let (rs1, seen1) := process_anchors kind filter_set sub.marks br.gid br.anchors 0 seen
    let (rs2, seen2) := append_mark_rules kind filter_set sub rest seen1
    (rs1 ++ rs2, seen2)

/-- The subtable loop shared by `get_mark_base_rules` and
`get_mark_mark_rules` (`marks.rs:57-78`, `marks.rs:147-168`): one
seen-set threads through all subtables. -/
def get_rules_loop (kind : NLookupType) (filter_set : Option Nat) :
    List NSubtable → NSeen → List NRule × NSeen
  | [], seen => ([], seen)
  | sub :: rest, seen =>
    let (rs1, seen1) := append_mark_rules kind filter_set sub sub.bases seen
    let (rs2, seen2) := get_rules_loop kind filter_set rest seen1
    (rs1 ++ rs2, seen2)

/-- `get_mark_base_rules` / `get_mark_mark_rules`: run all subtables with
a fresh seen-set. -/
def get_mark_attachment_rules (kind : NLookupType) (filter_set : Option Nat)
    (subtables : List NSubtable) : List NRule :=
  (get_rules_loop kind filter_set subtables []).1

/-- Per-subtable outputs of the loop (specification helper): the rules
each subtable contributes, in order. -/
def subtable_outputs (kind : NLookupType) (filter_set : Option Nat) :
    List NSubtable → NSeen → List (List NRule)
  | [], _ => []
  | sub :: rest, seen =>
    let (rs1, seen1) := append_mark_rules kind filter_set sub sub.bases seen
    rs1 :: subtable_outputs kind filter_set rest seen1

/-- Number of times a rule attaches mark `m` to base `b`. -/
def NRule.pair_count (r : NRule) (b m : Nat) : Nat :=
  if r.base = b then (r.marks.filter (fun e => e.2 = m)).length else 0

/-- Number of attachments of `(b, m)` across a list of rules. -/
def pair_count (rs : List NRule) (b m : Nat) : Nat :=
  (rs.map (fun r => r.pair_count b m)).sum

/-- Some covered mark record of class `ix` carries glyph `m`. -/
def mark_realized (marks : List NMarkRecord) (ix m : Nat) : Bool :=
  marks.any (fun mr => mr.cls = ix ∧ mr.gid = m)

/-- Some non-null anchor of the list (whose first element has class index
`ix`) has a covered mark record of its class carrying glyph `m`. -/
def anchors_realize (marks : List NMarkRecord) (m : Nat) :
    List (Option (Int × Int)) → Nat → Bool
  | [], _ => false
  | none :: rest, ix => anchors_realize marks m rest (ix + 1)
  | some _ :: rest, ix => mark_realized marks ix m || anchors_realize marks m rest (ix + 1)

/-- Some base record of the list covers `b` with a non-null anchor whose
class has a covered mark record carrying `m`. -/
def bases_realize (marks : List NMarkRecord) (b m : Nat) : List NBaseRecord → Bool
  | [] => false
  | br :: rest =>
    (decide (br.gid = b) && anchors_realize marks m br.anchors 0) || bases_realize marks b m rest

/-- A subtable covers the pair `(b, m)` (disregarding the seen-set): some
covered base record for `b` has a non-null anchor at some class index for
which some covered mark record carries glyph `m`. -/
def covers_pair (s : NSubtable) (b m : Nat) : Bool :=
  bases_realize s.marks b m s.bases

/-- Whether no subtable before index `i` covers the pair. -/
def no_earlier_cover (subs : List NSubtable) (i b m : Nat) : Bool :=
  (List.range i).all (fun j => ! covers_pair (subs.getD j ⟨[], []⟩) b m)

/-- `get_mark_base_rules` (`marks.rs:57`). -/
def get_mark_base_rules (filter_set : Option Nat) (subtables : List NSubtable) : List NRule :=
  get_mark_attachment_rules .markToBase filter_set subtables

/-- `get_mark_mark_rules` (`marks.rs:147`). -/
def get_mark_mark_rules (filter_set : Option Nat) (subtables : List NSubtable) : List NRule :=
  get_mark_attachment_rules .markToMark filter_set subtables

/-! ## fea-rs GPOS rule grammar (`src/grammar/gpos.rs`), claim C9

The helpers `glyph::eat_glyph_or_glyph_class` and
`metrics::eat_value_record` live in modules not among the provided
sources; following spec 4.3 they are modelled as consuming a single
pre-lexed glyph-or-class token, resp. value-record token.  Identifier
tokens carry their raw text, because `gpos` dispatches on
`parser.nth_raw(0)` for the context-sensitive words `base` and
`ligature`. -/

/-- The token kinds the gpos productions inspect. -/
inductive FeaTok
  | posKw
  | enumKw
  | cursiveKw
  | markKw
  | lookupKw
  | ident (raw : String)
  | glyphLike
  | valueRec
  | semi
  | quote
deriving DecidableEq, Repr

/-- Which production a `pos` rule is parsed as. -/
inductive GposRuleKind
  | single
  | pair
  | chain
  | cursive
  | markToBase
  | markToMark
  | markToLig
deriving DecidableEq, Repr

/-- `eat_chain_element` (`gpos.rs:138`): a quote, `lookup` keyword, plain
identifier or glyph/class. -/
def eat_chain_element : FeaTok → Bool
  | .quote => true
  | .lookupKw => true
  | .ident _ => true
  | .glyphLike => true
  | _ => false

/-- `gpos_single_pair_or_chain` (`gpos.rs:101`): the lookahead that
separates single, pair and chain-context positioning rules. -/
def gpos_single_pair_or_chain (toks : List FeaTok) : GposRuleKind :=
  -- parser.eat(Kind::EnumKw)
  let toks := match toks with
    | .enumKw :: r => r
    | r => r
  -- first glyph::eat_glyph_or_glyph_class (result unused)
  let toks := match toks with
    | .glyphLike :: r => r
    | r => r
  match toks with
  | .valueRec :: rest =>
    match rest with
    | .semi :: _ => .single
    | _ => .pair
  | .glyphLike :: rest =>
    match rest with
    | .valueRec :: _ => .pair
    | _ => .chain
  | _ => .chain

/-- `gpos` / `gpos_body` (`gpos.rs:20-40`): dispatch on the token after
`pos`.  `cursive` and `mark` are keywords; `base` and `ligature` are
matched by raw text (`nth_raw`) because the lexer does not reserve them.
`none` models the `assert!(parser.eat(Kind::PosKw))` failing. -/
def gpos (toks : List FeaTok) : Option GposRuleKind :=
  match toks with
  | .posKw :: rest =>
    some (match rest with
      | .cursiveKw :: _ => .cursive
      | .markKw :: _ => .markToMark
      | .ident "base" :: _ => .markToBase
      | .ident "ligature" :: _ => .markToLig
      | _ => gpos_single_pair_or_chain rest)
  | _ => none

/-! ## Reference (spec-side) definitions and helper predicates -/

/-- First contender matching the common words after `Regular` removal
(what claim C3 says wins when nothing matches exactly). -/
def first_regular_idx (common : List String) : List (Nat × List String) → Option Nat
  | [] => none
  | (idx, words) :: rest =>
    if common = words.filter (fun w => w ≠ "Regular") then some idx
    else first_regular_idx common rest

/-- The token lists of the named masters, with their master indices
(the `contenders` of `default_master_idx`). -/
def master_contenders (raw_font : RawFont) : List (Nat × List String) :=
  (raw_font.font_master.enum).filterMap
    (fun p => p.2.name.map (fun name => (p.1, whitespace_separated_tokens name)))

/-- The tokens of the first contender retained to those appearing in every
other contender (the `common_words` of `default_master_idx`). -/
def common_tokens : List (Nat × List String) → List String
  | [] => []
  | c0 :: rest => rest.foldl (fun cw p => cw.filter (fun w => w ∈ p.2)) c0.2

/-- The explicit `Variable Font Origin` lookup of `default_master_idx`. -/
def origin_master_idx (raw_font : RawFont) : Option Nat :=
  (raw_font.custom_parameters.string "Variable Font Origin").bind
    (fun origin => raw_font.font_master.findIdx? (fun m => m.id = origin))

/-- Default-master selection as claim C3 words it: origin first; else the
first exact match of the common tokens; else the FIRST master matching
after deleting `Regular`; else 0. -/
def default_master_idx_claimed (raw_font : RawFont) : Nat :=
  match origin_master_idx raw_font with
  | some master_idx => master_idx
  | none =>
    let contenders := master_contenders raw_font
    let common := common_tokens contenders
    match first_exact_idx common contenders with
    | some i => i
    | none => (first_regular_idx common contenders).getD 0

/-- Default-master selection as the code actually behaves (the amended
claim): origin first; else the first exact match of the common tokens;
else the LAST master matching after deleting `Regular`; else 0. -/
def default_master_idx_spec (raw_font : RawFont) : Nat :=
  match origin_master_idx raw_font with
  | some master_idx => master_idx
  | none =>
    let contenders := master_contenders raw_font
    let common := common_tokens contenders
    match first_exact_idx common contenders with
    | some i => i
    | none => (last_regular_idx common contenders).getD 0

/-- A kern participant resolves directly: a glyph name must be in the
glyph order, a group name must be a key of the kerning groups. -/
def kern_participant_resolves (glyph_order : GlyphOrder) (groups : SMap (List String)) :
    KernParticipant → Bool
  | .glyph n => GlyphOrder.containsName glyph_order n
  | .group n => (SMap.get? groups n).isSome

/-- Both participants of a kern entry resolve directly. -/
def kern_entry_resolves (glyph_order : GlyphOrder) (groups : SMap (List String))
    (entry : (KernParticipant × KernParticipant) × List (Loc × Int)) : Bool :=
  kern_participant_resolves glyph_order groups entry.1.1 &&
    kern_participant_resolves glyph_order groups entry.1.2

/-- `n` is the name of an unresolved direct participant of the entry. -/
def kern_entry_missing_name (glyph_order : GlyphOrder) (groups : SMap (List String))
    (entry : (KernParticipant × KernParticipant) × List (Loc × Int)) (n : String) : Prop :=
  ((entry.1.1 = .glyph n ∨ entry.1.2 = .glyph n) ∧ ¬ GlyphOrder.containsName glyph_order n)
    ∨ ((entry.1.1 = .group n ∨ entry.1.2 = .group n) ∧ (SMap.get? groups n).isNone)

/-- The anchors of one glyph that survive pruning: base, mark or ligature
kind, group used on both a base and a mark anchor of some considered
glyph. -/
def kept_anchors (used_groups : List String) (anchors : List IRAnchor) : List IRAnchor :=
  anchors.filter (fun anchor =>
    match anchor.mark_group_name with
    | some group => used_groups.contains group
    | none => false)

/-- Strictly increasing keys: the invariant of maps built by
`SMap.entryModify`. -/
def SMapSorted {V : Type} (m : SMap V) : Prop :=
  m.Chain' (fun a b => strLt a.1 b.1 = true)

/-- The pruned-map component of `prune_anchor`. -/
def prune_anchor_pruned (glyph_name : String) (pruned : SMap (List IRAnchor))
    (anchor : IRAnchor) : SMap (List IRAnchor) :=
  match anchor.kind with
  | .base _ => SMap.entryModify pruned glyph_name [] (fun l => l ++ [anchor])
  | .ligature _ _ => SMap.entryModify pruned glyph_name [] (fun l => l ++ [anchor])
  | .mark _ => SMap.entryModify pruned glyph_name [] (fun l => l ++ [anchor])
  | .other => pruned

/-- The pruned-map component of `prune_glyph`. -/
def prune_glyph_pruned (glyph_order : GlyphOrder) (incl : List String)
    (pruned : SMap (List IRAnchor)) (ga : GlyphAnchors) : SMap (List IRAnchor) :=
  if ¬ glyph_order.containsName ga.glyph_name then pruned
  else if ¬ incl.isEmpty ∧ ¬ incl.contains ga.glyph_name then pruned
  else ga.anchors.foldl (prune_anchor_pruned ga.glyph_name) pruned

/-- The group of an anchor counted on the base side (base and ligature
anchors). -/
def anchor_base_group? (a : IRAnchor) : Option String :=
  match a.kind with
  | .base g => some g
  | .ligature g _ => some g
  | _ => none

/-- The group of an anchor counted on the mark side. -/
def anchor_mark_group? (a : IRAnchor) : Option String :=
  match a.kind with
  | .mark g => some g
  | _ => none

/-- The base/mark/ligature anchors of a glyph (those the pruning loop
records). -/
def bml_anchors (anchors : List IRAnchor) : List IRAnchor :=
  anchors.filter (fun a =>
    match a.kind with
    | .base _ => true
    | .ligature _ _ => true
    | .mark _ => true
    | .other => false)

/-- A glyph is considered by the pruning pass: present in the glyph
order, and in the include set when that set is non-empty. -/
def considered_glyph (glyph_order : GlyphOrder) (incl : List String)
    (ga : GlyphAnchors) : Bool :=
  GlyphOrder.containsName glyph_order ga.glyph_name &&
    (incl.isEmpty || incl.contains ga.glyph_name)

/-- The groups appearing on base anchors of considered glyphs, in pass
order. -/
def base_groups_spec (glyph_order : GlyphOrder) (incl : List String)
    (anchors : List GlyphAnchors) : List String :=
  ((anchors.filter (considered_glyph glyph_order incl)).map
    (fun ga => ga.anchors.filterMap anchor_base_group?)).flatten

/-- The groups appearing on mark anchors of considered glyphs, in pass
order. -/
def mark_groups_spec (glyph_order : GlyphOrder) (incl : List String)
    (anchors : List GlyphAnchors) : List String :=
  ((anchors.filter (considered_glyph glyph_order incl)).map
    (fun ga => ga.anchors.filterMap anchor_mark_group?)).flatten

/-- The groups used on both sides among considered glyphs. -/
def used_groups_spec (glyph_order : GlyphOrder) (incl : List String)
    (anchors : List GlyphAnchors) : List String :=
  (base_groups_spec glyph_order incl anchors).filter
    (fun g => (mark_groups_spec glyph_order incl anchors).contains g)

/-! ## Concrete example inputs -/

/-- C3 counterexample font: no origin parameter; two masters named
`Foo Regular` and one named `Foo Italic`. -/
def c3_font : RawFont :=
  { font_master := [
      { id := "m1", name := some "Foo Regular" },
      { id := "m2", name := some "Foo Regular" },
      { id := "m3", name := some "Foo Italic" }] }

/-- C5 counterexample font: v2, no explicit axes, single master with only
the `weightValue` legacy field. -/
def c5_font : RawFont :=
  { font_master := [{ id := "m1", name := some "Regular", weight_value := some 400 }] }

/-- C6 counterexample font: one axis, one master with an `Axis Location`
parameter (user 400, design 0), no `Axis Mappings`. -/
def c6_font : RawFont :=
  { axes := [⟨"Weight", "wght"⟩],
    font_master := [
      { id := "m1", name := some "Regular", axes_values := [0],
        custom_parameters := [("Axis Location", .axisLocations [⟨"Weight", 400⟩])] }] }

/-- C6 counterexample instances: one active single instance mapping user
700 to design 600 on the same axis. -/
def c6_instances : List Instance :=
  [{ active := true, type_ := .single, axis_mappings := [("Weight", ⟨[(700, 600)]⟩)] }]

/-- C2 counterexample anchors: `acutecomb` is a mark with a base anchor
`top` and a mark anchor `_bottom`; `b` is a base with base anchor
`bottom`; `gravecomb` is a mark with mark anchor `_top`.  (Anchor kinds
store the bare group name.) -/
def c2_anchors : List GlyphAnchors :=
  [⟨"acutecomb", [⟨.base "top", [("dflt", 100, 500)]⟩, ⟨.mark "bottom", [("dflt", 90, -10)]⟩]⟩,
   ⟨"b", [⟨.base "bottom", [("dflt", 200, 0)]⟩]⟩,
   ⟨"gravecomb", [⟨.mark "top", [("dflt", 50, 50)]⟩]⟩]

/-- C2 glyph order. -/
def c2_order : GlyphOrder := ["acutecomb", "b", "gravecomb"]

/-- C2 gdef classes. -/
def c2_gdef : SMap GlyphClassDef := [("acutecomb", .mark), ("b", .base), ("gravecomb", .mark)]

/-- C2 mark lookup builder. -/
def c2_builder : MarkLookupBuilder := MarkLookupBuilder.new c2_anchors c2_order "dflt" c2_gdef

/-- C8 counterexample anchors: `m` has a mark anchor `_top`, `x` a base
anchor `top`. -/
def c8_anchors : List GlyphAnchors :=
  [⟨"m", [⟨.mark "top", [("dflt", 0, 0)]⟩]⟩,
   ⟨"x", [⟨.base "top", [("dflt", 1, 2)]⟩]⟩]

/-- C8 glyph order. -/
def c8_order : GlyphOrder := ["m", "x"]

/-- C8 gdef classes: only `x`, declared `Component` (not Base, Mark or
Ligature). -/
def c8_gdef : SMap GlyphClassDef := [("x", .component)]

/-- C8 witness glyphs: a base glyph `A` with a `top` base anchor, a mark
`acutecomb` with a `top` mark anchor, and a stray mark whose `bottom`
group has no base anchor. -/
def c8w_anchors : List GlyphAnchors :=
  [⟨"A", [⟨.base "top", []⟩]⟩,
   ⟨"acutecomb", [⟨.mark "top", []⟩]⟩,
   ⟨"stray", [⟨.mark "bottom", []⟩]⟩]

/-- C8 witness glyph order. -/
def c8w_order : GlyphOrder := ["A", "acutecomb", "stray"]

/-- C4 counterexample kerning: the group `kern1.A` contains `Adieresis`
and the nonexistent glyph `ghost`; one kern entry pairs the group with
glyph `b`. -/
def c4_ir : KerningIR :=
  { groups := [("kern1.A", ["Adieresis", "ghost"])],
    kerns := [((.group "kern1.A", .glyph "b"), [("dflt", -50)])] }

/-- C4 glyph order (no `ghost`). -/
def c4_order : GlyphOrder := ["Adieresis", "b"]

/-- C1 witness subtable 1 (mirrors the `first_subtable_wins` unit test):
marks 11 and 12 in class 0, base glyph 1 with one anchor. -/
def c1_sub1 : NSubtable :=
  { marks := [⟨11, 0, (20, 20)⟩, ⟨12, 0, (30, 30)⟩], bases := [⟨1, [some (200, 200)]⟩] }

/-- C1 witness subtable 2: marks 10 and 11 (11 is a dupe) and the same
base glyph. -/
def c1_sub2 : NSubtable :=
  { marks := [⟨10, 0, (-11, -11)⟩, ⟨11, 0, (-22, -22)⟩], bases := [⟨1, [some (404, 404)]⟩] }

/-- C7 witness anchor: a base anchor whose x varies across two masters
and whose y does not. -/
def c7_anchor : IRAnchor := ⟨.base "top", [("dflt", 100, 500), ("bold", 120, 500)]⟩

/-! ## Theorems -/

/-- C10: glyph codepoint decoding splits the unicode string on commas
and unwraps `u32::from_str_radix` on every entry with the version radix
(16 below format version 3, 10 from it on), so an entry that is not a
valid integer in that radix aborts font loading with a panic (modelled as
`none`) rather than an `Err`, while well-formed strings decode to the
codepoint set. -/
theorem c10_parse_codepoint_unwrap_panics :
    codepoint_radix 2 = 16 ∧ codepoint_radix 3 = 10 ∧
    parse_codepoint_str "EFFF,xyz" 16 = none ∧
    parse_codepoint_str "A3" 10 = none ∧
    parse_codepoint_str "0041,0301" 16 = some [65, 769] ∧
    parse_codepoint_str "99,755" 10 = some [99, 755] := by decide

/-- C3 counterexample: with masters named `Foo Regular`, `Foo Regular`
and `Foo Italic` and no origin parameter, the common tokens are `[Foo]`,
no master matches them exactly, and the first master matching after
deleting `Regular` is master 0 — yet `default_master_idx` returns 1 (the
last such master), contradicting the claim that the first wins. -/
theorem c3_first_regular_counterexample :
    origin_master_idx c3_font = none ∧
    master_contenders c3_font =
      [(0, ["Foo", "Regular"]), (1, ["Foo", "Regular"]), (2, ["Foo", "Italic"])] ∧
    common_tokens (master_contenders c3_font) = ["Foo"] ∧
    first_exact_idx ["Foo"] (master_contenders c3_font) = none ∧
    first_regular_idx ["Foo"] (master_contenders c3_font) = some 0 ∧
    default_master_idx_claimed c3_font = 0 ∧
    default_master_idx c3_font = 1 := by decide

/-- C5 counterexample: a v2 font with no explicit axes whose single
master sets only the legacy `weightValue` field still gets all three
default axes (not a list truncated to one axis), with the master values
filled as `[400, 100, 0]`. -/
theorem c5_no_truncation_counterexample :
    c5_font.custom_parameters.axesParam = none ∧
    c5_font.axes = [] ∧
    c5_font.font_master.map (fun m => [m.weight_value, m.width_value, m.custom_value]) =
      [[some 400, none, none]] ∧
    v2_to_v3_axes c5_font = .ok
      ({ format_version := 2,
         axes := default_v2_axes,
         font_master := [{ id := "m1", name := some "Regular",
                           weight_value := some 400, axes_values := [400, 100, 0] }],
         instances := [],
         custom_parameters := [] }, []) ∧
    default_v2_axes.length = 3 := by decide

/-- C6 counterexample: the font has no `Axis Mappings` but every master
has `Axis Location`, which yields the map `Weight -> [(400, 0)]`; master
design coordinates add nothing new — yet the resolved mapping also picks
up the pair `(700, 600)` from an active instance, contradicting the claim
that the mapping is taken from the first present source alone. -/
theorem c6_instance_mappings_merged_counterexample :
    user_to_design_from_axis_mapping c6_font = none ∧
    user_to_design_from_axis_location c6_font = .ok (some [("Weight", ⟨[(400, 0)]⟩)]) ∧
    add_master_mappings_if_new [("Weight", ⟨[(400, 0)]⟩)] c6_font =
      [("Weight", ⟨[(400, 0)]⟩)] ∧
    RawUserToDesignMapping.new c6_font c6_instances =
      .ok ⟨[("Weight", ⟨[(400, 0), (700, 600)]⟩)]⟩ := by decide

/-- C4 counterexample: the kerning group `kern1.A` contains the name
`ghost`, which is absent from the glyph order; `KerningWork::exec`
succeeds anyway, silently mapping `ghost` to glyph id 0 (the second
emitted pair), instead of aborting with an error carrying the name. -/
theorem c4_group_member_gid0_counterexample :
    ("ghost" ∈ (SMap.get? c4_ir.groups "kern1.A").getD []) ∧
    GlyphOrder.containsName c4_order "ghost" = false ∧
    kerning_work_exec c4_order "dflt" c4_ir =
      .ok { deltas := [], pairs := [(0, -50, 1, none), (0, -50, 1, none)], classes := [] } := by
  decide

/-- C2 counterexample: in the synthesized mark-to-mark lookup for group
`top`, the mark glyph `acutecomb` (gid 0) contributes the base (mark2)
anchor — it is a mark glyph with a base anchor in a group where some mark
has a mark anchor of the same name — but the mark filtering set is
`[2]` (`gravecomb` only), so the filter set does not contain all mark
glyphs contributing to the lookup. -/
theorem c2_filter_set_counterexample :
    c2_builder.mark_glyphs = ["acutecomb", "gravecomb"] ∧
    GlyphOrder.glyph_id c2_order "acutecomb" = some 0 ∧
    c2_builder.mark_mark_lookups = .ok
      [{ marks := [(2, "top", ⟨50, 50, none, none⟩)],
         bases := [(0, "top", ⟨100, 500, none, none⟩)],
         use_mark_filtering_set := true,
         filter_set := some [2] }] ∧
    (([2] : List Nat).contains 0) = false := by decide

/-- C8 counterexample: a gdef category is declared (`x` is `Component`),
yet because no glyph is categorized Base, Mark or Ligature the `include`
set is empty and no restriction applies: `x` (a `Component`) is still
considered and its anchors are kept, contradicting the claim that any
declared category restricts consideration to Base/Mark/Ligature
glyphs. -/
theorem c8_component_only_categories_counterexample :
    c8_gdef.isEmpty = false ∧
    SMap.get? c8_gdef "x" = some .component ∧
    include_set c8_gdef = [] ∧
    (MarkLookupBuilder.new c8_anchors c8_order "dflt" c8_gdef).anchor_lists =
      [("m", [⟨.mark "top", [("dflt", 0, 0)]⟩]),
       ("x", [⟨.base "top", [("dflt", 1, 2)]⟩])] := by decide

/-- C9: in a positioning rule that is not cursive, mark-to-mark (keyword
dispatch), mark-to-base or mark-to-ligature (raw-text dispatch on the
context-sensitive identifiers `base` and `ligature`, which reach this
code as plain `Ident` tokens), the parser disambiguates by lookahead: a
glyph or class followed by a value record followed by `;` is a single
rule; a value record followed by a second glyph, or two glyphs or classes
followed by one terminal value record, is a pair rule; anything else is a
chain-context rule, and any other identifier (such as `anchor`) is
treated as an ordinary chain element. -/
theorem c9_gpos_rule_disambiguation :
    (∀ rest : List FeaTok,
      gpos (.posKw :: .glyphLike :: .valueRec :: .semi :: rest) = some .single) ∧
    (∀ rest : List FeaTok,
      gpos (.posKw :: .glyphLike :: .valueRec :: .glyphLike :: rest) = some .pair) ∧
    (∀ rest : List FeaTok,
      gpos (.posKw :: .glyphLike :: .glyphLike :: .valueRec :: rest) = some .pair) ∧
    (∀ (t : FeaTok) (rest : List FeaTok), t ≠ .valueRec →
      gpos (.posKw :: .glyphLike :: .glyphLike :: t :: rest) = some .chain) ∧
    (gpos [.posKw, .glyphLike, .glyphLike] = some .chain) ∧
    (∀ rest : List FeaTok, gpos (.posKw :: .cursiveKw :: rest) = some .cursive) ∧
    (∀ rest : List FeaTok, gpos (.posKw :: .markKw :: rest) = some .markToMark) ∧
    (∀ rest : List FeaTok, gpos (.posKw :: .ident "base" :: rest) = some .markToBase) ∧
    (∀ rest : List FeaTok, gpos (.posKw :: .ident "ligature" :: rest) = some .markToLig) ∧
    (∀ (s : String) (rest : List FeaTok), s ≠ "base" → s ≠ "ligature" →
      gpos (.posKw :: .ident s :: rest) = some .chain) ∧
    (∀ toks : List FeaTok, toks.head? ≠ some .posKw → gpos toks = none) := by
  refine ⟨fun rest => rfl, fun rest => rfl, fun rest => rfl, ?_, rfl, fun rest => rfl,
    fun rest => rfl, fun rest => rfl, fun rest => rfl, ?_, ?_⟩
  · intro t rest ht
    cases t <;> simp_all [gpos, gpos_single_pair_or_chain]
  · intro s rest h1 h2
    simp [gpos, gpos_single_pair_or_chain, h1, h2]
  · intro toks h
    cases toks with
    | nil => rfl
    | cons t rest => cases t <;> simp_all [gpos]

/-- C9 witness: the hypotheses of the conditional parts discharged at
concrete tokens (a semicolon is not a value record; `anchor` is neither
`base` nor `ligature`). -/
theorem c9_gpos_rule_disambiguation_witness :
    gpos [.posKw, .glyphLike, .glyphLike, .semi, .semi] = some .chain ∧
    gpos [.posKw, .ident "anchor", .glyphLike] = some .chain :=
  ⟨c9_gpos_rule_disambiguation.2.2.2.1 .semi [.semi] (by decide),
   c9_gpos_rule_disambiguation.2.2.2.2.2.2.2.2.2.1 "anchor" [.glyphLike]
     (by decide) (by decide)⟩

/-- Lookup in a projected association list: projecting the values first
and looking up then is finding the entry and projecting after. -/
theorem lookup_map_proj {α : Type} (f : Loc × Int × Int → α)
    (l : List (Loc × Int × Int)) (k : Loc) :
    ((l.map (fun p => (p.1, f p))).lookup k) = (l.find? (fun p => p.1 == k)).map f := by
  induction l with
  | nil => rfl
  | cons hd tl ih =>
    simp only [List.map_cons, List.lookup, List.find?]
    by_cases h : k = hd.1
    · simp [h]
    · have h1 : (k == hd.1) = false := by simpa using h
      have h2 : (hd.1 == k) = false := by simpa using fun e => h e.symm
      simp [h1, h2, ih]

/-- The spec-modelled solver, characterized: the default output is the
value sampled at the default location, and the returned delta vector has
a nonzero component exactly when some non-default sample differs from the
default. -/
theorem resolve_variable_metric_spec (d : Loc) (values : List (Loc × Int))
    (v : Int) (ds : List (Loc × Int))
    (h : resolve_variable_metric d values = .ok (v, ds)) :
    values.lookup d = some v ∧
      ((ds.any (fun p => p.2 ≠ 0)) = true ↔ ¬ ∀ p ∈ values, p.1 ≠ d → p.2 = v) ∧
      (ds = [] ↔ ∀ p ∈ values, p.1 ≠ d → p.2 = v) := by
  unfold resolve_variable_metric at h
  cases hl : values.lookup d with
  | none => rw [hl] at h; exact absurd h (by simp)
  | some dflt =>
    rw [hl] at h
    simp only [Except.ok.injEq, Prod.mk.injEq] at h
    obtain ⟨hv, hds⟩ := h
    subst hv
    have hiff : (∀ p ∈ values, p.1 ≠ d → p.2 = dflt) ↔
        ((values.filter (fun p => p.1 ≠ d)).map (fun p => (p.1, p.2 - dflt))).all
          (fun q => q.2 = 0) = true := by
      rw [List.all_eq_true]
      constructor
      · intro hall q hq
        obtain ⟨p, hpm, rfl⟩ := List.mem_map.mp hq
        obtain ⟨hpv, hpd⟩ := List.mem_filter.mp hpm
        have := hall p hpv (by simpa using hpd)
        simp [this]
      · intro hz p hp hpd
        have := hz (p.1, p.2 - dflt)
          (List.mem_map.mpr ⟨p, List.mem_filter.mpr ⟨hp, by simpa using hpd⟩, rfl⟩)
        simp at this
        omega
    by_cases hz : ((values.filter (fun p => p.1 ≠ d)).map
        (fun p => (p.1, p.2 - dflt))).all (fun q => q.2 = 0) = true
    · rw [if_pos hz] at hds
      subst hds
      have hall := hiff.mpr hz
      exact ⟨rfl, Iff.intro (fun h' => absurd h' (by simp)) (fun hcon => absurd hall hcon),
        Iff.intro (fun _ => hall) (fun _ => rfl)⟩
    · rw [if_neg hz] at hds
      subst hds
      have hne : ¬ ∀ p ∈ values, p.1 ≠ d → p.2 = dflt := fun hall => hz (hiff.mp hall)
      have hnonempty :
          ((values.filter (fun p => p.1 ≠ d)).map (fun p => (p.1, p.2 - dflt))) ≠ [] := by
        intro he
        rw [he] at hz
        exact hz rfl
      refine ⟨rfl, ⟨fun _ => hne, fun _ => ?_⟩, ⟨fun he => absurd he hnonempty,
        fun hall => absurd hall hne⟩⟩
      rw [List.any_eq_true]
      have hz2 := hz
      rw [List.all_eq_true] at hz2
      push_neg at hz2
      obtain ⟨q, hqm, hq0⟩ := hz2
      exact ⟨q, hqm, by simpa using hq0⟩

/-- The spec-modelled solver succeeds whenever the default location is
sampled. -/
theorem resolve_variable_metric_ok (d : Loc) (values : List (Loc × Int)) (v : Int)
    (hl : values.lookup d = some v) :
    ∃ ds, resolve_variable_metric d values = .ok (v, ds) := by
  unfold resolve_variable_metric
  rw [hl]
  exact ⟨_, rfl⟩

/-- C7: `resolve_anchor` resolves x and y independently through the
variation solver: the resulting defaults are the values sampled at the
default master location, a design-space device is attached to a
coordinate only when some delta component for that coordinate is nonzero,
and the device is absent exactly when every non-default master shares the
default value of that coordinate. -/
theorem c7_resolve_anchor_deltas (default_loc : Loc) (anchor : IRAnchor) (glyph_name : String)
    (h : ((anchor.positions.map (fun p => (p.1, p.2.1))).lookup default_loc).isSome) :
    ∃ a : FeaAnchor,
      resolve_anchor default_loc anchor glyph_name = .ok a ∧
      (anchor.positions.map (fun p => (p.1, p.2.1))).lookup default_loc = some a.x ∧
      (anchor.positions.map (fun p => (p.1, p.2.2))).lookup default_loc = some a.y ∧
      (a.x_device = none ↔ ∀ p ∈ anchor.positions, p.1 ≠ default_loc → p.2.1 = a.x) ∧
      (a.y_device = none ↔ ∀ p ∈ anchor.positions, p.1 ≠ default_loc → p.2.2 = a.y) ∧
      (∀ ds, a.x_device = some ds → ds.any (fun v => v.2 ≠ 0) = true) ∧
      (∀ ds, a.y_device = some ds → ds.any (fun v => v.2 ≠ 0) = true) := by
  obtain ⟨xd, hxd⟩ := Option.isSome_iff_exists.mp h
  have hyde : ∃ yd, (anchor.positions.map (fun p => (p.1, p.2.2))).lookup default_loc = some yd := by
    rw [lookup_map_proj (fun p => p.2.2)]
    rw [lookup_map_proj (fun p => p.2.1)] at hxd
    cases hf : anchor.positions.find? (fun p => p.1 == default_loc) with
    | none => rw [hf] at hxd; simp at hxd
    | some q => exact ⟨q.2.2, by simp⟩
  obtain ⟨yd, hyd⟩ := hyde
  obtain ⟨xds, hx⟩ := resolve_variable_metric_ok _ _ _ hxd
  obtain ⟨yds, hy⟩ := resolve_variable_metric_ok _ _ _ hyd
  obtain ⟨hlx, hanyx, hnilx⟩ := resolve_variable_metric_spec _ _ _ _ hx
  obtain ⟨hly, hanyy, hnily⟩ := resolve_variable_metric_spec _ _ _ _ hy
  have htx : (∀ q ∈ anchor.positions.map (fun p => (p.1, p.2.1)), q.1 ≠ default_loc → q.2 = xd)
      ↔ (∀ p ∈ anchor.positions, p.1 ≠ default_loc → p.2.1 = xd) := by
    constructor
    · intro hq p hp hn
      exact hq (p.1, p.2.1) (List.mem_map.mpr ⟨p, hp, rfl⟩) hn
    · intro hp q hq hn
      obtain ⟨p, hpm, rfl⟩ := List.mem_map.mp hq
      exact hp p hpm hn
  have hty : (∀ q ∈ anchor.positions.map (fun p => (p.1, p.2.2)), q.1 ≠ default_loc → q.2 = yd)
      ↔ (∀ p ∈ anchor.positions, p.1 ≠ default_loc → p.2.2 = yd) := by
    constructor
    · intro hq p hp hn
      exact hq (p.1, p.2.2) (List.mem_map.mpr ⟨p, hp, rfl⟩) hn
    · intro hp q hq hn
      obtain ⟨p, hpm, rfl⟩ := List.mem_map.mp hq
      exact hp p hpm hn
  unfold resolve_anchor
  simp only [hx, hy, Except.mapError, Except.bind, bind, pure, Except.pure]
  refine ⟨_, rfl, ?_, ?_, ?_, ?_, ?_, ?_⟩
  · split <;> split <;> exact hxd
  · split <;> split <;> exact hyd
  · split <;> split <;> rename_i hyc hxc <;>
      first
        | exact Iff.intro (fun he => by cases he)
            (fun hall => absurd (htx.mpr hall) (hanyx.mp hxc))
        | (have hall := htx.mp (not_not.mp (fun hc => hxc (hanyx.mpr hc)))
           exact Iff.intro (fun _ => hall) (fun _ => rfl))
  · split <;> split <;> rename_i hyc hxc <;>
      first
        | exact Iff.intro (fun he => by cases he)
            (fun hall => absurd (hty.mpr hall) (hanyy.mp hyc))
        | (have hall := hty.mp (not_not.mp (fun hc => hyc (hanyy.mpr hc)))
           exact Iff.intro (fun _ => hall) (fun _ => rfl))
  · split <;> split <;> rename_i hyc hxc <;> intro ds hds <;>
      first
        | (cases hds; exact hxc)
        | cases hds
  · split <;> split <;> rename_i hyc hxc <;> intro ds hds <;>
      first
        | (cases hds; exact hyc)
        | cases hds

/-- C7 witness: the theorem at a concrete two-master anchor, hypothesis
discharged by evaluation. -/
theorem c7_resolve_anchor_deltas_witness :
    ∃ a : FeaAnchor,
      resolve_anchor "dflt" c7_anchor "A" = .ok a ∧
      (c7_anchor.positions.map (fun p => (p.1, p.2.1))).lookup "dflt" = some a.x ∧
      (c7_anchor.positions.map (fun p => (p.1, p.2.2))).lookup "dflt" = some a.y ∧
      (a.x_device = none ↔ ∀ p ∈ c7_anchor.positions, p.1 ≠ "dflt" → p.2.1 = a.x) ∧
      (a.y_device = none ↔ ∀ p ∈ c7_anchor.positions, p.1 ≠ "dflt" → p.2.2 = a.y) ∧
      (∀ ds, a.x_device = some ds → ds.any (fun v => v.2 ≠ 0) = true) ∧
      (∀ ds, a.y_device = some ds → ds.any (fun v => v.2 ≠ 0) = true) :=
  c7_resolve_anchor_deltas "dflt" c7_anchor "A" (by decide)

/-- Helper: the inner loop of `List.mapM` in `Except`, when the function
never fails. -/
theorem exceptMapM_loop_ok {α β ε : Type} (f : α → Except ε β) (g : α → β)
    (h : ∀ x, f x = .ok (g x)) :
    ∀ (l : List α) (acc : List β), List.mapM.loop f l acc = .ok (acc.reverse ++ l.map g)
  | [], acc => by simp [List.mapM.loop, pure, Except.pure]
  | x :: xs, acc => by
    simp [List.mapM.loop, h x, bind, Except.bind, exceptMapM_loop_ok f g h xs (g x :: acc)]

/-- `List.mapM` in `Except` of a function that never fails is `map`. -/
theorem exceptMapM_ok {α β ε : Type} (f : α → Except ε β) (g : α → β)
    (h : ∀ x, f x = .ok (g x)) (l : List α) :
    l.mapM f = .ok (l.map g) := by
  simpa [List.mapM] using exceptMapM_loop_ok f g h l []

/-- The master loop of `v2_to_v3_axes` under the three default axes. -/
theorem masters_mapM_v2 (l : List RawFontMaster) :
    (l.mapM (fun m => do
      let vs ← axis_values m.v2_fields default_v2_axes
      pure { m with axes_values := vs })) =
    .ok (l.map (fun m => { m with axes_values :=
      [(m.weight_value.or m.interpolation_weight).getD 100,
       (m.width_value.or m.interpolation_width).getD 100,
       m.custom_value.getD 0] })) :=
  exceptMapM_ok _ _ (fun _ => rfl) l

/-- The instance loop of `v2_to_v3_axes` under the three default axes. -/
theorem instances_mapM_v2 (l : List RawInstance) :
    (l.mapM (fun i => do
      let vs ← axis_values i.v2_fields default_v2_axes
      pure { i with axes_values := vs })) =
    .ok (l.map (fun i => { i with axes_values :=
      [(i.weight_value.or i.interpolation_weight).getD 100,
       (i.width_value.or i.interpolation_width).getD 100,
       i.custom_value.getD 0] })) :=
  exceptMapM_ok _ _ (fun _ => rfl) l

/-- C5 amended: for a Glyphs-v2 source without explicit axes the lift
produces all three default axes (no truncation, no error), and fills each
master and instance `axes_values` from the legacy fields with defaults
(100, 100, 0) when absent. -/
theorem c5_axes_lift_amended (raw : RawFont)
    (h1 : raw.custom_parameters.axesParam = none) (h2 : raw.axes = []) :
    v2_to_v3_axes raw = .ok
      ({ raw with
          axes := default_v2_axes,
          font_master := raw.font_master.map (fun m => { m with axes_values :=
            [(m.weight_value.or m.interpolation_weight).getD 100,
             (m.width_value.or m.interpolation_width).getD 100,
             m.custom_value.getD 0] }),
          instances := raw.instances.map (fun i => { i with axes_values :=
            [(i.weight_value.or i.interpolation_weight).getD 100,
             (i.width_value.or i.interpolation_width).getD 100,
             i.custom_value.getD 0] }) }, []) := by
  unfold v2_to_v3_axes
  rw [h1, h2]
  simp only [List.nil_append, List.isEmpty_nil, if_true]
  rw [if_neg (by decide)]
  rw [masters_mapM_v2, instances_mapM_v2]
  rfl

/-- C5 witness: the amended theorem at the concrete single-master font,
hypotheses discharged by evaluation. -/
theorem c5_axes_lift_amended_witness :
    v2_to_v3_axes c5_font = .ok
      ({ c5_font with
          axes := default_v2_axes,
          font_master := c5_font.font_master.map (fun m => { m with axes_values :=
            [(m.weight_value.or m.interpolation_weight).getD 100,
             (m.width_value.or m.interpolation_width).getD 100,
             m.custom_value.getD 0] }),
          instances := c5_font.instances.map (fun i => { i with axes_values :=
            [(i.weight_value.or i.interpolation_weight).getD 100,
             (i.width_value.or i.interpolation_width).getD 100,
             i.custom_value.getD 0] }) }, []) :=
  c5_axes_lift_amended c5_font (by decide) (by decide)

/-- C6 amended: explicit Axis Mappings, when present, are used alone and
active-instance mappings are ignored (the result does not depend on the
instances); otherwise the base is the per-master Axis Location map (when
every master has one) or the empty map, and in both of those cases the
mappings implied by active instances are additionally merged; the design
coordinates of the masters are appended as identity pairs last.  The
`Except` layer carries the panic of the eager Axis Location scan. -/
theorem c6_mapping_precedence_amended (f : RawFont) (insts : List Instance) :
    (∀ m, user_to_design_from_axis_mapping f = some m →
        RawUserToDesignMapping.new f insts =
          (user_to_design_from_axis_location f).map
            (fun _ => ⟨add_master_mappings_if_new m f⟩)) ∧
    (∀ l, user_to_design_from_axis_mapping f = none →
        user_to_design_from_axis_location f = .ok (some l) →
        RawUserToDesignMapping.new f insts =
          .ok ⟨add_master_mappings_if_new (add_instance_mappings_if_new l insts) f⟩) ∧
    (user_to_design_from_axis_mapping f = none →
        user_to_design_from_axis_location f = .ok none →
        RawUserToDesignMapping.new f insts =
          .ok ⟨add_master_mappings_if_new (add_instance_mappings_if_new [] insts) f⟩) := by
  refine ⟨?_, ?_, ?_⟩
  · intro m hm
    unfold RawUserToDesignMapping.new
    cases hloc : user_to_design_from_axis_location f with
    | error e => simp [hloc, hm, Except.map, bind, Except.bind]
    | ok ol => cases ol <;> simp [hloc, hm, Except.map, bind, Except.bind, pure, Except.pure]
  · intro l hm hloc
    unfold RawUserToDesignMapping.new
    simp [hloc, hm, bind, Except.bind, pure, Except.pure]
  · intro hm hloc
    unfold RawUserToDesignMapping.new
    simp [hloc, hm, bind, Except.bind, pure, Except.pure]

/-- C6 witness: the second branch of the amended theorem at the concrete
one-axis font, hypotheses discharged by evaluation. -/
theorem c6_mapping_precedence_amended_witness :
    RawUserToDesignMapping.new c6_font c6_instances =
      .ok ⟨add_master_mappings_if_new
        (add_instance_mappings_if_new [("Weight", ⟨[(400, 0)]⟩)] c6_instances) c6_font⟩ :=
  (c6_mapping_precedence_amended c6_font c6_instances).2.1 [("Weight", ⟨[(400, 0)]⟩)]
    (by decide) (by decide)

/-- The selection loop returns the first exact match if any, else the
last Regular-removed match, else the initial best index. -/
theorem best_idx_loop_eq (common : List String) (l : List (Nat × List String)) (best : Nat) :
    best_idx_loop common best l =
      match first_exact_idx common l with
      | some i => i
      | none =>
        match last_regular_idx common l with
        | some i => i
        | none => best := by
  induction l generalizing best with
  | nil => rfl
  | cons hd tl ih =>
    obtain ⟨idx, words⟩ := hd
    simp only [best_idx_loop, first_exact_idx, last_regular_idx]
    by_cases h1 : common = words
    · rw [if_pos h1, if_pos h1]
    · rw [if_neg h1, if_neg h1]
      by_cases h2 : common = words.filter (fun w => w ≠ "Regular")
      · rw [if_pos h2, if_pos h2, ih idx]
        cases hfe : first_exact_idx common tl <;>
          cases hlr : last_regular_idx common tl <;> rfl
      · rw [if_neg h2, if_neg h2, ih best]
        cases hfe : first_exact_idx common tl <;>
          cases hlr : last_regular_idx common tl <;> rfl

/-- C3 amended: the default master is the origin-named master if the
`Variable Font Origin` parameter names one; otherwise, among masters with
names, the first whose tokens equal the common token list exactly wins;
failing that the LAST master whose tokens equal the common list after
deleting `Regular` wins (not the first, as the spec words it); otherwise
index 0. -/
theorem c3_default_master_idx_amended (raw_font : RawFont) :
    default_master_idx raw_font = default_master_idx_spec raw_font := by
  unfold default_master_idx default_master_idx_spec origin_master_idx master_contenders
  cases ho : (raw_font.custom_parameters.string "Variable Font Origin").bind
      (fun origin => raw_font.font_master.findIdx? (fun m => m.id = origin)) with
  | some i => rfl
  | none =>
    cases hc : (raw_font.font_master.enum).filterMap
        (fun p => p.2.name.map (fun name => (p.1, whitespace_separated_tokens name))) with
    | nil => rfl
    | cons c0 rest =>
      simp only [common_tokens]
      rw [best_idx_loop_eq]
      cases hfe : first_exact_idx (rest.foldl (fun cw p => cw.filter (fun w => w ∈ p.2)) c0.2)
          (c0 :: rest) <;>
        cases hlr : last_regular_idx (rest.foldl (fun cw p => cw.filter (fun w => w ∈ p.2)) c0.2)
            (c0 :: rest) <;>
          simp [hfe, hlr]

/-- `findIdx?` finds something exactly when the list contains the name. -/
theorem findIdx?_isSome_contains (n : String) (l : List String) :
    (l.findIdx? (fun m => m = n)).isSome = l.contains n := by
  induction l with
  | nil => rfl
  | cons hd tl ih =>
    rw [List.findIdx?_cons]
    by_cases h : hd = n
    · simp [h]
    · rw [if_neg (by simp [h])]
      simp [ih, Ne.symm h]

/-- `GlyphOrder::glyph_id` succeeds exactly on names in the order. -/
theorem glyph_id_isSome (order : GlyphOrder) (n : String) :
    (GlyphOrder.glyph_id order n).isSome = GlyphOrder.containsName order n :=
  findIdx?_isSome_contains n order

/-- Mapping the values of an association list preserves which keys are
present. -/
theorem SMap_get?_map_isSome {V W : Type} (g : String × V → W) (m : SMap V) (k : String) :
    (SMap.get? (m.map (fun p => (p.1, g p))) k).isSome = (SMap.get? m k).isSome := by
  induction m with
  | nil => rfl
  | cons hd tl ih =>
    unfold SMap.get?
    simp only [List.map_cons, List.find?]
    by_cases h : hd.1 = k
    · simp [h]
    · have h2 : (decide (hd.1 = k)) = false := by simpa using h
      simp only [h2]
      exact ih

/-- The `gid` closure fails with `MissingGlyphId` on absent names. -/
theorem kern_gid_error (order : GlyphOrder) (n : String)
    (h : GlyphOrder.containsName order n = false) :
    kern_gid order n = .error (.missingGlyphId n) := by
  unfold kern_gid
  cases hg : GlyphOrder.glyph_id order n with
  | none => rfl
  | some g =>
    have := glyph_id_isSome order n
    rw [hg, h] at this
    cases this

/-- The `gid` closure succeeds on present names. -/
theorem kern_gid_ok (order : GlyphOrder) (n : String)
    (h : GlyphOrder.containsName order n = true) :
    ∃ g, kern_gid order n = .ok g := by
  unfold kern_gid
  cases hg : GlyphOrder.glyph_id order n with
  | none =>
    have := glyph_id_isSome order n
    rw [hg, h] at this
    cases this
  | some g => exact ⟨g, rfl⟩

/-- Bool bridge for `Option`. -/
theorem isNone_of_isSome_false {α : Type} {o : Option α} (h : o.isSome = false) :
    o.isNone = true := by
  cases o with
  | none => rfl
  | some v => cases h

/-- One kern entry succeeds exactly when both direct participants
resolve, and otherwise fails with a `MissingGlyphId` carrying the name of
an unresolved participant.  Glyph names inside groups play no role. -/
theorem kern_add_entry_spec (glyph_order : GlyphOrder) (default_loc : Loc)
    (groups : SMap (List String))
    (st : List (List (Loc × Int) × Nat) × KerningOut)
    (entry : (KernParticipant × KernParticipant) × List (Loc × Int))
    (hv : (entry.2.lookup default_loc).isSome) :
    (kern_entry_resolves glyph_order groups entry = true →
       ∃ st', kern_add_entry glyph_order default_loc
         (groups.map (fun p => (p.1, p.2.map (fun g => (glyph_order.glyph_id g).getD 0))))
         st entry = .ok st') ∧
    (kern_entry_resolves glyph_order groups entry = false →
       ∃ n, kern_add_entry glyph_order default_loc
         (groups.map (fun p => (p.1, p.2.map (fun g => (glyph_order.glyph_id g).getD 0))))
         st entry = .error (.missingGlyphId n) ∧
         kern_entry_missing_name glyph_order groups entry n) := by
  obtain ⟨⟨l, r⟩, values⟩ := entry
  obtain ⟨v, hlv⟩ := Option.isSome_iff_exists.mp hv
  obtain ⟨ds, hres⟩ := resolve_variable_metric_ok default_loc values v hlv
  have hmap := fun (n : String) => SMap_get?_map_isSome
    (fun p => p.2.map (fun g => (glyph_order.glyph_id g).getD 0)) groups n
  constructor
  · intro hok
    unfold kern_add_entry
    simp only [hres, Except.mapError, bind, Except.bind, pure, Except.pure]
    cases l with
    | glyph ln =>
      cases r with
      | glyph rn =>
        simp only [kern_entry_resolves, kern_participant_resolves, Bool.and_eq_true] at hok
        obtain ⟨hl, hr⟩ := hok
        obtain ⟨g0, hg0⟩ := kern_gid_ok _ _ hl
        obtain ⟨g1, hg1⟩ := kern_gid_ok _ _ hr
        simp only [hg0, hg1]
        exact ⟨_, rfl⟩
      | group rn =>
        simp only [kern_entry_resolves, kern_participant_resolves, Bool.and_eq_true] at hok
        obtain ⟨hl, hr⟩ := hok
        obtain ⟨g0, hg0⟩ := kern_gid_ok _ _ hl
        cases hgc : SMap.get? (groups.map
            (fun p => (p.1, p.2.map (fun g => (glyph_order.glyph_id g).getD 0)))) rn with
        | none =>
          exfalso
          have := hmap rn
          rw [hgc, hr] at this
          cases this
        | some cls =>
          simp only [hg0, hgc]
          exact ⟨_, rfl⟩
    | group ln =>
      cases r with
      | glyph rn =>
        simp only [kern_entry_resolves, kern_participant_resolves, Bool.and_eq_true] at hok
        obtain ⟨hl, hr⟩ := hok
        obtain ⟨g1, hg1⟩ := kern_gid_ok _ _ hr
        cases hgc : SMap.get? (groups.map
            (fun p => (p.1, p.2.map (fun g => (glyph_order.glyph_id g).getD 0)))) ln with
        | none =>
          exfalso
          have := hmap ln
          rw [hgc, hl] at this
          cases this
        | some cls =>
          simp only [hgc, hg1]
          exact ⟨_, rfl⟩
      | group rn =>
        simp only [kern_entry_resolves, kern_participant_resolves, Bool.and_eq_true] at hok
        obtain ⟨hl, hr⟩ := hok
        cases hgc : SMap.get? (groups.map
            (fun p => (p.1, p.2.map (fun g => (glyph_order.glyph_id g).getD 0)))) ln with
        | none =>
          exfalso
          have := hmap ln
          rw [hgc, hl] at this
          cases this
        | some cls =>
          cases hgc2 : SMap.get? (groups.map
              (fun p => (p.1, p.2.map (fun g => (glyph_order.glyph_id g).getD 0)))) rn with
          | none =>
            exfalso
            have := hmap rn
            rw [hgc2, hr] at this
            cases this
          | some cls2 =>
            simp only [hgc, hgc2]
            exact ⟨_, rfl⟩
  · intro hfail
    unfold kern_add_entry
    simp only [hres, Except.mapError, bind, Except.bind, pure, Except.pure]
    cases l with
    | glyph ln =>
      by_cases hl : GlyphOrder.containsName glyph_order ln = true
      · have hr : kern_participant_resolves glyph_order groups r = false := by
          cases hx : kern_participant_resolves glyph_order groups r with
          | false => rfl
          | true =>
            exfalso
            simp only [kern_entry_resolves, kern_participant_resolves] at hfail hx
            rw [hl, hx] at hfail
            simp at hfail
        obtain ⟨g0, hg0⟩ := kern_gid_ok _ _ hl
        cases r with
        | glyph rn =>
          simp only [kern_participant_resolves] at hr
          simp only [hg0, kern_gid_error _ _ hr]
          exact ⟨rn, rfl, Or.inl ⟨Or.inr rfl, by simp [hr]⟩⟩
        | group rn =>
          simp only [kern_participant_resolves] at hr
          have hgc : SMap.get? (groups.map
              (fun p => (p.1, p.2.map (fun g => (glyph_order.glyph_id g).getD 0)))) rn = none := by
            have := hmap rn
            rw [hr] at this
            cases hgg : SMap.get? (groups.map
                (fun p => (p.1, p.2.map (fun g => (glyph_order.glyph_id g).getD 0)))) rn with
            | none => rfl
            | some c => rw [hgg] at this; cases this
          simp only [hg0, hgc]
          exact ⟨rn, rfl, Or.inr ⟨Or.inr rfl, isNone_of_isSome_false hr⟩⟩
      · have hl2 : GlyphOrder.containsName glyph_order ln = false := by
          cases hx : GlyphOrder.containsName glyph_order ln with
          | false => rfl
          | true => exact absurd hx hl
        cases r with
        | glyph rn =>
          simp only [kern_gid_error _ _ hl2]
          exact ⟨ln, rfl, Or.inl ⟨Or.inl rfl, by simp [hl2]⟩⟩
        | group rn =>
          simp only [kern_gid_error _ _ hl2]
          exact ⟨ln, rfl, Or.inl ⟨Or.inl rfl, by simp [hl2]⟩⟩
    | group ln =>
      by_cases hl : (SMap.get? groups ln).isSome = true
      · obtain ⟨cls, hgc⟩ : ∃ cls, SMap.get? (groups.map
            (fun p => (p.1, p.2.map (fun g => (glyph_order.glyph_id g).getD 0)))) ln =
              some cls := by
          rw [← Option.isSome_iff_exists, hmap ln]
          exact hl
        have hr : kern_participant_resolves glyph_order groups r = false := by
          cases hx : kern_participant_resolves glyph_order groups r with
          | false => rfl
          | true =>
            exfalso
            simp only [kern_entry_resolves, kern_participant_resolves] at hfail hx
            rw [hl, hx] at hfail
            simp at hfail
        cases r with
        | glyph rn =>
          simp only [kern_participant_resolves] at hr
          simp only [hgc, kern_gid_error _ _ hr]
          exact ⟨rn, rfl, Or.inl ⟨Or.inr rfl, by simp [hr]⟩⟩
        | group rn =>
          simp only [kern_participant_resolves] at hr
          have hgc2 : SMap.get? (groups.map
              (fun p => (p.1, p.2.map (fun g => (glyph_order.glyph_id g).getD 0)))) rn = none := by
            have := hmap rn
            rw [hr] at this
            cases hgg : SMap.get? (groups.map
                (fun p => (p.1, p.2.map (fun g => (glyph_order.glyph_id g).getD 0)))) rn with
            | none => rfl
            | some c => rw [hgg] at this; cases this
          simp only [hgc, hgc2]
          exact ⟨rn, rfl, Or.inr ⟨Or.inr rfl, isNone_of_isSome_false hr⟩⟩
      · have hl2 : (SMap.get? groups ln).isSome = false := by
          cases hx : (SMap.get? groups ln).isSome with
          | false => rfl
          | true => exact absurd hx hl
        have hgc : SMap.get? (groups.map
            (fun p => (p.1, p.2.map (fun g => (glyph_order.glyph_id g).getD 0)))) ln = none := by
          have := hmap ln
          rw [hl2] at this
          cases hgg : SMap.get? (groups.map
              (fun p => (p.1, p.2.map (fun g => (glyph_order.glyph_id g).getD 0)))) ln with
          | none => rfl
          | some c => rw [hgg] at this; cases this
        cases r with
        | glyph rn =>
          simp only [hgc]
          exact ⟨ln, rfl, Or.inr ⟨Or.inl rfl, isNone_of_isSome_false hl2⟩⟩
        | group rn =>
          simp only [hgc]
          exact ⟨ln, rfl, Or.inr ⟨Or.inl rfl, isNone_of_isSome_false hl2⟩⟩

/-- The kern entry loop, folded: success exactly when every entry
resolves directly, and the error carries a missing participant name. -/
theorem kern_fold_spec (glyph_order : GlyphOrder) (default_loc : Loc)
    (groups : SMap (List String)) :
    ∀ (l : List ((KernParticipant × KernParticipant) × List (Loc × Int)))
      (st : List (List (Loc × Int) × Nat) × KerningOut),
      (∀ e ∈ l, (e.2.lookup default_loc).isSome) →
      ((∃ out, l.foldlM (kern_add_entry glyph_order default_loc
          (groups.map (fun p => (p.1, p.2.map (fun g => (glyph_order.glyph_id g).getD 0))))) st
          = .ok out) ↔ ∀ e ∈ l, kern_entry_resolves glyph_order groups e = true) ∧
      (∀ n, l.foldlM (kern_add_entry glyph_order default_loc
          (groups.map (fun p => (p.1, p.2.map (fun g => (glyph_order.glyph_id g).getD 0))))) st
          = .error (.missingGlyphId n) →
          ∃ e ∈ l, kern_entry_missing_name glyph_order groups e n)
  | [], st, _ => by
    constructor
    · simp [List.foldlM_nil, pure, Except.pure]
    · intro n h
      simp only [List.foldlM_nil, pure, Except.pure] at h
      cases h
  | e :: rest, st, hv => by
    have he := kern_add_entry_spec glyph_order default_loc groups st e (hv e (by simp))
    by_cases hre : kern_entry_resolves glyph_order groups e = true
    · obtain ⟨st', hok⟩ := he.1 hre
      have IH := kern_fold_spec glyph_order default_loc groups rest st'
        (fun x hx => hv x (by simp [hx]))
      constructor
      · rw [List.foldlM_cons, hok]
        simp only [bind, Except.bind]
        rw [IH.1]
        simp [List.forall_mem_cons, hre]
      · intro n h
        rw [List.foldlM_cons, hok] at h
        simp only [bind, Except.bind] at h
        obtain ⟨e', he', hm⟩ := IH.2 n h
        exact ⟨e', by simp [he'], hm⟩
    · have hre2 : kern_entry_resolves glyph_order groups e = false := by
        cases hx : kern_entry_resolves glyph_order groups e with
        | false => rfl
        | true => exact absurd hx hre
      obtain ⟨n0, herr, hmiss⟩ := he.2 hre2
      constructor
      · rw [List.foldlM_cons, herr]
        simp only [bind, Except.bind]
        constructor
        · intro hout
          obtain ⟨out, hout⟩ := hout
          cases hout
        · intro hall
          exact absurd (hall e (by simp)) (by simp [hre2])
      · intro n h
        rw [List.foldlM_cons, herr] at h
        simp only [bind, Except.bind] at h
        have : n0 = n := by
          injection h with h2
          injection h2
        exact ⟨e, by simp, this ▸ hmiss⟩

/-- C4 amended: `KerningWork::exec` fails iff some kern entry references
a missing glyph directly or a missing group name, and the error then
carries such a missing name; glyph names inside kerning groups that are
absent from the glyph order do NOT cause an error (they are silently
mapped to glyph id 0, see the counterexample). -/
theorem c4_kerning_missing_names_amended (glyph_order : GlyphOrder) (default_loc : Loc)
    (ir : KerningIR)
    (hv : ∀ e ∈ ir.kerns, (e.2.lookup default_loc).isSome) :
    ((∃ out, kerning_work_exec glyph_order default_loc ir = .ok out) ↔
        ∀ e ∈ ir.kerns, kern_entry_resolves glyph_order ir.groups e = true) ∧
    (∀ n, kerning_work_exec glyph_order default_loc ir = .error (.missingGlyphId n) →
        ∃ e ∈ ir.kerns, kern_entry_missing_name glyph_order ir.groups e n) := by
  have h := kern_fold_spec glyph_order default_loc ir.groups ir.kerns ([], {}) hv
  unfold kerning_work_exec
  cases hf : ir.kerns.foldlM (kern_add_entry glyph_order default_loc
      (ir.groups.map (fun p => (p.1, p.2.map (fun g => (glyph_order.glyph_id g).getD 0)))))
      ([], {}) with
  | ok stout =>
    constructor
    · rw [← h.1]
      constructor
      · intro _
        exact ⟨stout, hf⟩
      · intro _
        simp only [hf, bind, Except.bind, pure, Except.pure]
        exact ⟨stout.2, rfl⟩
    · intro n hn
      simp only [hf, bind, Except.bind, pure, Except.pure] at hn
      cases hn
  | error err =>
    constructor
    · rw [← h.1]
      constructor
      · intro hout
        obtain ⟨out, hout⟩ := hout
        simp only [hf, bind, Except.bind] at hout
        cases hout
      · intro hex
        obtain ⟨out, hout⟩ := hex
        rw [hout] at hf
        cases hf
    · intro n hn
      simp only [hf, bind, Except.bind] at hn
      injection hn with hn2
      exact h.2 n (hn2 ▸ hf)

/-- C4 witness: the amended theorem at the concrete kerning input,
hypothesis discharged by evaluation. -/
theorem c4_kerning_missing_names_amended_witness :
    ((∃ out, kerning_work_exec c4_order "dflt" c4_ir = .ok out) ↔
        ∀ e ∈ c4_ir.kerns, kern_entry_resolves c4_order c4_ir.groups e = true) ∧
    (∀ n, kerning_work_exec c4_order "dflt" c4_ir = .error (.missingGlyphId n) →
        ∃ e ∈ c4_ir.kerns, kern_entry_missing_name c4_order c4_ir.groups e n) :=
  c4_kerning_missing_names_amended c4_order "dflt" c4_ir (by decide)

/-- A fold preserves an invariant preserved by each step. -/
theorem foldl_preserve {σ α : Type} (P : σ → Prop) (f : σ → α → σ)
    (l : List α) (init : σ) (hi : P init) (hf : ∀ s a, a ∈ l → P s → P (f s a)) :
    P (l.foldl f init) := by
  induction l generalizing init with
  | nil => exact hi
  | cons hd tl ih =>
    rw [List.foldl_cons]
    exact ih (f init hd) (hf init hd (by simp) hi) (fun s a ha hs => hf s a (by simp [ha]) hs)

/-- `entryModify` preserves a pointwise value property when the update
function always (re)establishes it. -/
theorem entryModify_forall {V : Type} (P : V → Prop) (m : SMap V) (k : String) (dflt : V)
    (f : V → V) (hm : ∀ p ∈ m, P p.2) (hf : ∀ v, P (f v)) :
    ∀ p ∈ SMap.entryModify m k dflt f, P p.2 := by
  induction m with
  | nil =>
    intro p hp
    simp only [SMap.entryModify, List.mem_singleton] at hp
    rw [hp]
    exact hf dflt
  | cons hd tl ih =>
    intro p hp
    obtain ⟨k', v⟩ := hd
    simp only [SMap.entryModify] at hp
    by_cases h1 : k = k'
    · rw [if_pos h1] at hp
      cases hp with
      | head => exact hf v
      | tail _ hmem => exact hm p (List.mem_cons_of_mem _ hmem)
    · rw [if_neg h1] at hp
      by_cases h2 : strLt k k' = true
      · rw [if_pos h2] at hp
        cases hp with
        | head => exact hf dflt
        | tail _ hmem => exact hm p hmem
      · rw [if_neg h2] at hp
        cases hp with
        | head => exact hm (k', v) (List.mem_cons_self _ _)
        | tail _ hmem => exact ih (fun q hq => hm q (List.mem_cons_of_mem _ hq)) p hmem

/-- `modifyExisting` preserves a pointwise value property when the update
function preserves it. -/
theorem modifyExisting_forall {V : Type} (P : V → Prop) (m : SMap V) (k : String)
    (f : V → V) (hm : ∀ p ∈ m, P p.2) (hf : ∀ v, P v → P (f v)) :
    ∀ p ∈ SMap.modifyExisting m k f, P p.2 := by
  induction m with
  | nil => intro p hp; cases hp
  | cons hd tl ih =>
    intro p hp
    obtain ⟨k', v⟩ := hd
    simp only [SMap.modifyExisting] at hp
    by_cases h1 : k = k'
    · rw [if_pos h1] at hp
      cases hp with
      | head => exact hf v (hm (k', v) (List.mem_cons_self _ _))
      | tail _ hmem => exact hm p (List.mem_cons_of_mem _ hmem)
    · rw [if_neg h1] at hp
      cases hp with
      | head => exact hm (k', v) (List.mem_cons_self _ _)
      | tail _ hmem => exact ih (fun q hq => hm q (List.mem_cons_of_mem _ hq)) p hmem

/-- Every group produced by `make_mark_to_mark_groups` has
`filter_glyphs` set (groups are only created in the base pass, which sets
it). -/
theorem mkmk_groups_filter_glyphs (b : MarkLookupBuilder) :
    ∀ p ∈ b.make_mark_to_mark_groups, p.2.filter_glyphs = true := by
  unfold MarkLookupBuilder.make_mark_to_mark_groups
  apply foldl_preserve (fun (m : SMap MarkGroup) => ∀ p ∈ m, p.2.filter_glyphs = true)
  · apply foldl_preserve (fun (m : SMap MarkGroup) => ∀ p ∈ m, p.2.filter_glyphs = true)
    · intro p hp
      cases hp
    · intro s a _ hs
      obtain ⟨glyph, glyph_anchors⟩ := a
      dsimp only
      split
      · exact hs
      · apply foldl_preserve (fun (m : SMap MarkGroup) => ∀ p ∈ m, p.2.filter_glyphs = true)
          _ _ _ hs
        intro s2 anchor _ hs2
        split
        · split
          · exact entryModify_forall (fun (g : MarkGroup) => g.filter_glyphs = true)
              _ _ _ _ hs2 (fun v => rfl)
          · exact hs2
        · exact hs2
  · intro s mark _ hs
    apply foldl_preserve (fun (m : SMap MarkGroup) => ∀ p ∈ m, p.2.filter_glyphs = true)
      _ _ _ hs
    intro s2 anchor _ hs2
    split
    · exact modifyExisting_forall (fun (g : MarkGroup) => g.filter_glyphs = true)
        _ _ _ hs2 (fun v hv => hv)
    · exact hs2

/-- A successful `Except` bind factors through a successful first
stage. -/
theorem except_bind_ok {ε α β : Type} {x : Except ε α} {g : α → Except ε β} {b : β}
    (h : Except.bind x g = .ok b) : ∃ a, x = .ok a ∧ g a = .ok b := by
  cases x with
  | error e => cases h
  | ok a => exact ⟨a, rfl, h⟩

/-- Members of a successful `mapM` come from successful applications. -/
theorem exceptMapM_loop_mem {α β ε : Type} (f : α → Except ε β) :
    ∀ (l : List α) (acc res : List β), List.mapM.loop f l acc = .ok res →
      ∀ b ∈ res, b ∈ acc ∨ ∃ a ∈ l, f a = .ok b
  | [], acc, res => by
    intro h b hb
    simp only [List.mapM.loop, pure, Except.pure, Except.ok.injEq] at h
    subst h
    exact Or.inl (List.mem_reverse.mp hb)
  | x :: xs, acc, res => by
    intro h b hb
    simp only [List.mapM.loop, bind, Except.bind] at h
    cases hfx : f x with
    | error e => rw [hfx] at h; cases h
    | ok y =>
      rw [hfx] at h
      rcases exceptMapM_loop_mem f xs (y :: acc) res h b hb with hacc | ⟨a, ha, hfa⟩
      · cases hacc with
        | head => exact Or.inr ⟨x, List.mem_cons_self _ _, hfx⟩
        | tail _ hmem => exact Or.inl hmem
      · exact Or.inr ⟨a, List.mem_cons_of_mem _ ha, hfa⟩

theorem exceptMapM_mem {α β ε : Type} (f : α → Except ε β) (l : List α) (res : List β)
    (h : l.mapM f = .ok res) : ∀ b ∈ res, ∃ a ∈ l, f a = .ok b := by
  intro b hb
  rcases exceptMapM_loop_mem f l [] res (by simpa [List.mapM] using h) b hb with hacc | hex
  · cases hacc
  · exact hex

/-- Projecting a successful `mapM.loop` result. -/
theorem exceptMapM_loop_map_proj {α β γ ε : Type} (f : α → Except ε β) (proj : β → γ)
    (g : α → γ) (hfg : ∀ a b, f a = .ok b → proj b = g a) :
    ∀ (l : List α) (acc res : List β), List.mapM.loop f l acc = .ok res →
      res.map proj = (acc.reverse.map proj) ++ l.map g
  | [], acc, res => by
    intro h
    simp only [List.mapM.loop, pure, Except.pure, Except.ok.injEq] at h
    subst h
    simp
  | x :: xs, acc, res => by
    intro h
    simp only [List.mapM.loop, bind, Except.bind] at h
    cases hfx : f x with
    | error e => rw [hfx] at h; cases h
    | ok y =>
      rw [hfx] at h
      have := exceptMapM_loop_map_proj f proj g hfg xs (y :: acc) res h
      rw [this]
      simp [hfg x y hfx]

/-- Projecting a successful `mapM` result elementwise. -/
theorem exceptMapM_map_proj {α β γ ε : Type} (f : α → Except ε β) (proj : β → γ)
    (g : α → γ) (hfg : ∀ a b, f a = .ok b → proj b = g a) (l : List α) (res : List β)
    (h : l.mapM f = .ok res) : res.map proj = l.map g := by
  simpa using exceptMapM_loop_map_proj f proj g hfg l [] res (by simpa [List.mapM] using h)

/-- C2 amended: every synthesized mark-to-mark lookup has a mark
filtering set, its `useMarkFilteringSet` flag equals the presence of the
filter set, and the filter set is exactly the set of glyph ids
contributing mark (mark1) anchors to the lookup.  (Glyphs contributing
only base/mark2 anchors are not included, see the counterexample.) -/
theorem c2_mkmk_filter_sets_amended (b : MarkLookupBuilder) (lks : List PendingLookup)
    (h : b.mark_mark_lookups = .ok lks) :
    ∀ lk ∈ lks,
      lk.filter_set.isSome = true ∧
      lk.use_mark_filtering_set = lk.filter_set.isSome ∧
      lk.filter_set = some (sortedNatSet (lk.marks.map (fun m => m.1))) := by
  intro lk hlk
  unfold MarkLookupBuilder.mark_mark_lookups MarkLookupBuilder.make_lookups at h
  obtain ⟨p, hpmem, hmk⟩ := exceptMapM_mem _ _ _ h lk hlk
  obtain ⟨gname, grp⟩ := p
  have hfg : grp.filter_glyphs = true :=
    mkmk_groups_filter_glyphs b (gname, grp) (List.mem_filter.mp hpmem).1
  obtain ⟨marks, hm1, hmk⟩ := except_bind_ok hmk
  obtain ⟨bases, hm2, hmk⟩ := except_bind_ok hmk
  have hlkeq : lk = ⟨marks, bases, (grp.make_filter_glyph_set b.glyph_order).isSome,
      grp.make_filter_glyph_set b.glyph_order⟩ := by
    injection hmk with h2
    exact h2.symm
  have hfs : grp.make_filter_glyph_set b.glyph_order =
      some (sortedNatSet (grp.marks.map (fun m => (b.glyph_order.glyph_id m.1).getD 0))) := by
    unfold MarkGroup.make_filter_glyph_set
    rw [hfg]
    simp
  have hproj : marks.map (fun m => m.1) =
      grp.marks.map (fun m => (b.glyph_order.glyph_id m.1).getD 0) := by
    apply exceptMapM_map_proj _ _ _ _ _ _ hm1
    intro a bb hab
    obtain ⟨anc, hanc, hab⟩ := except_bind_ok hab
    injection hab with h3
    rw [← h3]
  subst hlkeq
  refine ⟨by rw [hfs]; rfl, rfl, ?_⟩
  simp only [hproj]
  exact hfs

/-- C2 witness: the amended theorem at the concrete builder, hypotheses
discharged by evaluation. -/
theorem c2_mkmk_filter_sets_amended_witness :
    (⟨[(2, "top", ⟨50, 50, none, none⟩)], [(0, "top", ⟨100, 500, none, none⟩)],
        true, some [2]⟩ : PendingLookup).filter_set.isSome = true ∧
    (⟨[(2, "top", ⟨50, 50, none, none⟩)], [(0, "top", ⟨100, 500, none, none⟩)],
        true, some [2]⟩ : PendingLookup).use_mark_filtering_set =
      (⟨[(2, "top", ⟨50, 50, none, none⟩)], [(0, "top", ⟨100, 500, none, none⟩)],
        true, some [2]⟩ : PendingLookup).filter_set.isSome ∧
    (⟨[(2, "top", ⟨50, 50, none, none⟩)], [(0, "top", ⟨100, 500, none, none⟩)],
        true, some [2]⟩ : PendingLookup).filter_set =
      some (sortedNatSet ((⟨[(2, "top", ⟨50, 50, none, none⟩)],
        [(0, "top", ⟨100, 500, none, none⟩)], true, some [2]⟩ :
          PendingLookup).marks.map (fun m => m.1))) :=
  c2_mkmk_filter_sets_amended c2_builder
    [⟨[(2, "top", ⟨50, 50, none, none⟩)], [(0, "top", ⟨100, 500, none, none⟩)],
        true, some [2]⟩] (by decide) _ (by decide)

theorem char_toNat_inj {a b : Char} (h : a.toNat = b.toNat) : a = b := by
  cases a with
  | mk va pa =>
    cases b with
    | mk vb pb =>
      simp only [Char.toNat] at h
      have : va = vb := UInt32.ext h
      subst this
      rfl

theorem charListLt_irrefl : ∀ l : List Char, charListLt l l = false
  | [] => rfl
  | c :: cs => by
    simp only [charListLt, if_pos rfl]
    exact charListLt_irrefl cs

theorem charListLt_trans : ∀ {a b c : List Char},
    charListLt a b = true → charListLt b c = true → charListLt a c = true
  | [], [], _, hab, _ => by cases hab
  | [], _ :: _, [], _, hbc => by cases hbc
  | [], _ :: _, _ :: _, _, _ => rfl
  | _ :: _, [], _, hab, _ => by cases hab
  | _ :: _, _ :: _, [], _, hbc => by cases hbc
  | x :: xs, y :: ys, z :: zs, hab, hbc => by
    simp only [charListLt] at hab hbc ⊢
    by_cases hxy : x.toNat = y.toNat
    · rw [if_pos hxy] at hab
      by_cases hyz : y.toNat = z.toNat
      · rw [if_pos hyz] at hbc
        rw [if_pos (hxy.trans hyz)]
        exact charListLt_trans hab hbc
      · rw [if_neg hyz] at hbc
        have hlt : y.toNat < z.toNat := by simpa using hbc
        rw [if_neg (by omega)]
        simp only [decide_eq_true_eq]
        omega
    · rw [if_neg hxy] at hab
      have hlt : x.toNat < y.toNat := by simpa using hab
      by_cases hyz : y.toNat = z.toNat
      · rw [if_neg (by omega : ¬ x.toNat = z.toNat)]
        simp only [decide_eq_true_eq]
        omega
      · rw [if_neg hyz] at hbc
        have hlt2 : y.toNat < z.toNat := by simpa using hbc
        rw [if_neg (by omega : ¬ x.toNat = z.toNat)]
        simp only [decide_eq_true_eq]
        omega

theorem charListLt_total : ∀ (a b : List Char), a ≠ b →
    charListLt a b = true ∨ charListLt b a = true
  | [], [], h => absurd rfl h
  | [], _ :: _, _ => Or.inl rfl
  | _ :: _, [], _ => Or.inr rfl
  | x :: xs, y :: ys, h => by
    by_cases hxy : x.toNat = y.toNat
    · have hx : x = y := char_toNat_inj hxy
      subst hx
      have hne : xs ≠ ys := by
        intro he
        exact h (by rw [he])
      rcases charListLt_total xs ys hne with h1 | h1
      · exact Or.inl (by simp only [charListLt, if_pos rfl]; exact h1)
      · exact Or.inr (by simp only [charListLt, if_pos rfl]; exact h1)
    · rcases Nat.lt_or_ge x.toNat y.toNat with h1 | h1
      · exact Or.inl (by simp only [charListLt, if_neg hxy]; simpa using h1)
      · have h2 : y.toNat < x.toNat := by omega
        have hyx : ¬ y.toNat = x.toNat := by omega
        exact Or.inr (by simp only [charListLt, if_neg hyx]; simpa using h2)

theorem str_toList_inj {a b : String} (h : a.toList = b.toList) : a = b := by
  cases a with
  | mk da =>
    cases b with
    | mk db =>
      simp only [String.toList] at h
      rw [h]

theorem strLt_irrefl (a : String) : strLt a a = false :=
  charListLt_irrefl a.toList

theorem strLt_trans {a b c : String} (h1 : strLt a b = true) (h2 : strLt b c = true) :
    strLt a c = true :=
  charListLt_trans h1 h2

theorem strLt_total (a b : String) (h : a ≠ b) :
    strLt a b = true ∨ strLt b a = true :=
  charListLt_total a.toList b.toList (fun he => h (str_toList_inj he))

theorem strLt_ne {a b : String} (h : strLt a b = true) : a ≠ b := by
  intro he
  subst he
  rw [strLt_irrefl] at h
  cases h

theorem SMap_get?_eq_none {V : Type} (m : SMap V) (k : String)
    (h : ∀ p ∈ m, ¬ p.1 = k) : SMap.get? m k = none := by
  induction m with
  | nil => rfl
  | cons hd tl ih =>
    unfold SMap.get?
    simp only [List.find?]
    have h1 : (decide (hd.1 = k)) = false := by
      simpa using h hd (List.mem_cons_self _ _)
    simp only [h1]
    exact ih (fun p hp => h p (List.mem_cons_of_mem _ hp))

theorem SMap_sorted_tail {V : Type} {hd : String × V} {tl : SMap V}
    (h : SMapSorted (hd :: tl)) : SMapSorted tl :=
  (List.chain'_cons'.mp h).2

theorem SMap_sorted_head_lt {V : Type} {k1 : String} {v1 : V} {tl : SMap V}
    (h : SMapSorted ((k1, v1) :: tl)) : ∀ p ∈ tl, strLt k1 p.1 = true := by
  induction tl generalizing k1 v1 with
  | nil => intro p hp; cases hp
  | cons hd2 tl2 ih =>
    intro p hp
    have h12 : strLt k1 hd2.1 = true := (List.chain'_cons.mp h).1
    cases hp with
    | head => exact h12
    | tail _ hmem =>
      have h2 : SMapSorted (hd2 :: tl2) := (List.chain'_cons.mp h).2
      obtain ⟨k2, v2⟩ := hd2
      exact strLt_trans h12 (ih h2 p hmem)

theorem SMap_get?_entryModify_other {V : Type} (m : SMap V) (k k2 : String) (dflt : V)
    (f : V → V) (h : k2 ≠ k) : SMap.get? (SMap.entryModify m k dflt f) k2 = SMap.get? m k2 := by
  induction m with
  | nil =>
    unfold SMap.entryModify SMap.get?
    have hd : (decide (k = k2)) = false := by simpa using fun e => h e.symm
    simp [List.find?, hd]
  | cons hd tl ih =>
    obtain ⟨k1, v1⟩ := hd
    unfold SMap.entryModify
    by_cases h1 : k = k1
    · rw [if_pos h1]
      unfold SMap.get?
      simp only [List.find?]
      have : (decide (k1 = k2)) = false := by
        subst h1
        simpa using fun e => h e.symm
      simp only [this]
    · rw [if_neg h1]
      by_cases h2 : strLt k k1 = true
      · rw [if_pos h2]
        unfold SMap.get?
        simp only [List.find?]
        have : (decide (k = k2)) = false := by simpa using fun e => h e.symm
        simp only [this]
      · rw [if_neg h2]
        unfold SMap.get?
        simp only [List.find?]
        cases hq : decide (k1 = k2) with
        | true => simp
        | false => exact ih

theorem SMap_get?_entryModify_self {V : Type} (m : SMap V) (k : String) (dflt : V)
    (f : V → V) (hs : SMapSorted m) :
    SMap.get? (SMap.entryModify m k dflt f) k = some (f ((SMap.get? m k).getD dflt)) := by
  induction m with
  | nil => simp [SMap.entryModify, SMap.get?, List.find?]
  | cons hd tl ih =>
    obtain ⟨k1, v1⟩ := hd
    unfold SMap.entryModify
    by_cases h1 : k = k1
    · subst h1
      rw [if_pos rfl]
      simp [SMap.get?, List.find?]
    · rw [if_neg h1]
      by_cases h2 : strLt k k1 = true
      · rw [if_pos h2]
        have hnone : SMap.get? ((k1, v1) :: tl) k = none := by
          apply SMap_get?_eq_none
          intro p hp
          cases hp with
          | head => exact fun e => h1 e.symm
          | tail _ hmem =>
            intro e
            have hlt := SMap_sorted_head_lt hs p hmem
            rw [e] at hlt
            exact strLt_ne (strLt_trans h2 hlt) rfl
        rw [hnone]
        simp [SMap.get?, List.find?]
      · rw [if_neg h2]
        have hd1 : (decide (k1 = k)) = false := by simpa using fun e => h1 e.symm
        simp only [SMap.get?, List.find?, hd1]
        exact ih (SMap_sorted_tail hs)

theorem SMap_entryModify_head_key {V : Type} (m : SMap V) (k : String) (dflt : V) (f : V → V) :
    ∀ y ∈ (SMap.entryModify m k dflt f).head?, y.1 = k ∨ ∃ z ∈ m.head?, y.1 = z.1 := by
  cases m with
  | nil =>
    intro y hy
    simp [SMap.entryModify] at hy
    exact Or.inl (by rw [← hy])
  | cons hd tl =>
    obtain ⟨k1, v1⟩ := hd
    intro y hy
    unfold SMap.entryModify at hy
    by_cases h1 : k = k1
    · rw [if_pos h1] at hy
      simp at hy
      right
      exact ⟨(k1, v1), by simp, by rw [← hy]⟩
    · rw [if_neg h1] at hy
      by_cases h2 : strLt k k1 = true
      · rw [if_pos h2] at hy
        simp at hy
        exact Or.inl (by rw [← hy])
      · rw [if_neg h2] at hy
        simp at hy
        right
        exact ⟨(k1, v1), by simp, by rw [← hy]⟩

theorem SMap_sorted_entryModify {V : Type} (m : SMap V) (k : String) (dflt : V)
    (f : V → V) (hs : SMapSorted m) : SMapSorted (SMap.entryModify m k dflt f) := by
  induction m with
  | nil =>
    unfold SMap.entryModify
    exact List.chain'_singleton _
  | cons hd tl ih =>
    obtain ⟨k1, v1⟩ := hd
    unfold SMap.entryModify
    by_cases h1 : k = k1
    · rw [if_pos h1]
      rw [SMapSorted, List.chain'_cons'] at hs ⊢
      exact ⟨hs.1, hs.2⟩
    · rw [if_neg h1]
      by_cases h2 : strLt k k1 = true
      · rw [if_pos h2]
        rw [SMapSorted, List.chain'_cons]
        exact ⟨h2, hs⟩
      · rw [if_neg h2]
        rw [SMapSorted, List.chain'_cons'] at hs ⊢
        refine ⟨?_, ih hs.2⟩
        intro y hy
        rcases SMap_entryModify_head_key tl k dflt f y hy with hk | ⟨z, hz, hzz⟩
        · rw [hk]
          rcases strLt_total k k1 h1 with ht | ht
          · rw [ht] at h2; cases h2 rfl
          · exact ht
        · rw [hzz]
          exact hs.1 z hz

theorem SMap_entryModify_comp {V : Type} (m : SMap V) (k : String) (dflt : V)
    (f g : V → V) :
    SMap.entryModify (SMap.entryModify m k dflt f) k dflt g =
      SMap.entryModify m k dflt (fun v => g (f v)) := by
  induction m with
  | nil => simp [SMap.entryModify]
  | cons hd tl ih =>
    obtain ⟨k1, v1⟩ := hd
    by_cases h1 : k = k1
    · simp only [SMap.entryModify, if_pos h1]
    · by_cases h2 : strLt k k1 = true
      · simp [SMap.entryModify, if_neg h1, if_pos h2]
      · simp only [SMap.entryModify, if_neg h1, if_neg h2]
        rw [ih]

theorem prune_anchor_foldl (n : String) :
    ∀ (l : List IRAnchor) (acc : SMap (List IRAnchor) × List String × List String),
    l.foldl (prune_anchor n) acc =
      (l.foldl (prune_anchor_pruned n) acc.1,
       acc.2.1 ++ l.filterMap anchor_base_group?,
       acc.2.2 ++ l.filterMap anchor_mark_group?)
  | [], acc => by simp
  | a :: l, acc => by
    rw [List.foldl_cons, List.foldl_cons, prune_anchor_foldl n l]
    obtain ⟨p, bg, mg⟩ := acc
    obtain ⟨kind, pos⟩ := a
    cases kind <;>
      simp [prune_anchor, prune_anchor_pruned, anchor_base_group?, anchor_mark_group?,
        List.filterMap_cons]

theorem prune_glyph_pruned_eq (go : GlyphOrder) (incl : List String)
    (pr : SMap (List IRAnchor)) (ga : GlyphAnchors) :
    prune_glyph_pruned go incl pr ga =
      (if considered_glyph go incl ga then
        ga.anchors.foldl (prune_anchor_pruned ga.glyph_name) pr
      else pr) := by
  by_cases h1 : GlyphOrder.containsName go ga.glyph_name = true
  · by_cases h2 : incl = []
    · rw [if_pos (by simp [considered_glyph, h1, h2])]
      unfold prune_glyph_pruned
      rw [if_neg (by simp [h1]), if_neg (by simp [h2])]
    · by_cases h3 : ga.glyph_name ∈ incl
      · rw [if_pos (by simp [considered_glyph, h1, h3])]
        unfold prune_glyph_pruned
        rw [if_neg (by simp [h1]), if_neg (by simp [h3])]
      · rw [if_neg (by simp [considered_glyph, h1, List.isEmpty_iff, h2, h3])]
        unfold prune_glyph_pruned
        rw [if_neg (by simp [h1]),
          if_pos ⟨by simp [List.isEmpty_iff, h2], by simp [h3]⟩]
  · rw [if_neg (by simp [considered_glyph, h1])]
    unfold prune_glyph_pruned
    rw [if_pos (by simpa using h1)]

theorem prune_glyph_eq (go : GlyphOrder) (incl : List String)
    (acc : SMap (List IRAnchor) × List String × List String) (ga : GlyphAnchors) :
    prune_glyph go incl acc ga =
      (if considered_glyph go incl ga then
        (ga.anchors.foldl (prune_anchor_pruned ga.glyph_name) acc.1,
         acc.2.1 ++ ga.anchors.filterMap anchor_base_group?,
         acc.2.2 ++ ga.anchors.filterMap anchor_mark_group?)
      else acc) := by
  by_cases h1 : GlyphOrder.containsName go ga.glyph_name = true
  · by_cases h2 : incl = []
    · rw [if_pos (by simp [considered_glyph, h1, h2])]
      unfold prune_glyph
      rw [if_neg (by simp [h1]), if_neg (by simp [h2])]
      exact prune_anchor_foldl _ _ _
    · by_cases h3 : ga.glyph_name ∈ incl
      · rw [if_pos (by simp [considered_glyph, h1, h3])]
        unfold prune_glyph
        rw [if_neg (by simp [h1]), if_neg (by simp [h3])]
        exact prune_anchor_foldl _ _ _
      · rw [if_neg (by simp [considered_glyph, h1, List.isEmpty_iff, h2, h3])]
        unfold prune_glyph
        rw [if_neg (by simp [h1]),
          if_pos ⟨by simp [List.isEmpty_iff, h2], by simp [h3]⟩]
  · rw [if_neg (by simp [considered_glyph, h1])]
    unfold prune_glyph
    rw [if_pos (by simpa using h1)]

theorem prune_glyph_foldl (go : GlyphOrder) (incl : List String) :
    ∀ (l : List GlyphAnchors) (acc : SMap (List IRAnchor) × List String × List String),
    l.foldl (prune_glyph go incl) acc =
      (l.foldl (prune_glyph_pruned go incl) acc.1,
       acc.2.1 ++ ((l.filter (considered_glyph go incl)).map
         (fun ga => ga.anchors.filterMap anchor_base_group?)).flatten,
       acc.2.2 ++ ((l.filter (considered_glyph go incl)).map
         (fun ga => ga.anchors.filterMap anchor_mark_group?)).flatten)
  | [], acc => by simp
  | ga :: l, acc => by
    rw [List.foldl_cons, List.foldl_cons, prune_glyph_foldl go incl l]
    rw [prune_glyph_eq, prune_glyph_pruned_eq]
    by_cases hc : considered_glyph go incl ga = true
    · rw [if_pos hc, if_pos hc]
      simp [List.filter_cons, hc]
    · rw [if_neg hc, if_neg hc]
      simp [List.filter_cons, hc]

theorem prune_pass_eq (go : GlyphOrder) (incl : List String)
    (anchors : List GlyphAnchors) :
    prune_pass go incl anchors =
      (anchors.foldl (prune_glyph_pruned go incl) [],
       base_groups_spec go incl anchors,
       mark_groups_spec go incl anchors) := by
  unfold prune_pass base_groups_spec mark_groups_spec
  rw [prune_glyph_foldl]
  simp

theorem prune_anchor_pruned_foldl_other (n k : String) (h : n ≠ k) :
    ∀ (l : List IRAnchor) (pr : SMap (List IRAnchor)),
    SMap.get? (l.foldl (prune_anchor_pruned n) pr) k = SMap.get? pr k
  | [], _ => rfl
  | a :: l, pr => by
    rw [List.foldl_cons, prune_anchor_pruned_foldl_other n k h l]
    obtain ⟨kind, pos⟩ := a
    cases kind with
    | base g => exact SMap_get?_entryModify_other pr n k _ _ (fun e => h e.symm)
    | mark g => exact SMap_get?_entryModify_other pr n k _ _ (fun e => h e.symm)
    | ligature g i => exact SMap_get?_entryModify_other pr n k _ _ (fun e => h e.symm)
    | other => rfl

theorem prune_anchor_pruned_foldl_sorted (n : String) :
    ∀ (l : List IRAnchor) (pr : SMap (List IRAnchor)),
    SMapSorted pr → SMapSorted (l.foldl (prune_anchor_pruned n) pr)
  | [], _, hs => hs
  | a :: l, pr, hs => by
    rw [List.foldl_cons]
    apply prune_anchor_pruned_foldl_sorted n l
    obtain ⟨kind, pos⟩ := a
    cases kind with
    | base g => exact SMap_sorted_entryModify pr n _ _ hs
    | mark g => exact SMap_sorted_entryModify pr n _ _ hs
    | ligature g i => exact SMap_sorted_entryModify pr n _ _ hs
    | other => exact hs

theorem prune_anchor_pruned_foldl_batch (n : String) :
    ∀ (l : List IRAnchor) (pr : SMap (List IRAnchor)),
    l.foldl (prune_anchor_pruned n) pr =
      (if (bml_anchors l).isEmpty then pr
       else SMap.entryModify pr n [] (fun v => v ++ bml_anchors l))
  | [], _ => rfl
  | a :: l, pr => by
    rw [List.foldl_cons, prune_anchor_pruned_foldl_batch n l]
    obtain ⟨kind, pos⟩ := a
    cases kind with
    | base g =>
      by_cases he : (bml_anchors l).isEmpty = true
      · rw [if_pos he]
        rw [show bml_anchors (⟨AnchorKind.base g, pos⟩ :: l) =
              ⟨AnchorKind.base g, pos⟩ :: bml_anchors l from by simp [bml_anchors]]
        rw [show bml_anchors l = [] from by simpa [List.isEmpty_iff] using he]
        rw [if_neg (by simp)]
        rfl
      · rw [if_neg he]
        rw [show bml_anchors (⟨AnchorKind.base g, pos⟩ :: l) =
              ⟨AnchorKind.base g, pos⟩ :: bml_anchors l from by simp [bml_anchors]]
        rw [if_neg (by simp)]
        simp only [prune_anchor_pruned]
        rw [SMap_entryModify_comp]
        congr 1
        funext v
        simp
    | mark g =>
      by_cases he : (bml_anchors l).isEmpty = true
      · rw [if_pos he]
        rw [show bml_anchors (⟨AnchorKind.mark g, pos⟩ :: l) =
              ⟨AnchorKind.mark g, pos⟩ :: bml_anchors l from by simp [bml_anchors]]
        rw [show bml_anchors l = [] from by simpa [List.isEmpty_iff] using he]
        rw [if_neg (by simp)]
        rfl
      · rw [if_neg he]
        rw [show bml_anchors (⟨AnchorKind.mark g, pos⟩ :: l) =
              ⟨AnchorKind.mark g, pos⟩ :: bml_anchors l from by simp [bml_anchors]]
        rw [if_neg (by simp)]
        simp only [prune_anchor_pruned]
        rw [SMap_entryModify_comp]
        congr 1
        funext v
        simp
    | ligature g i =>
      by_cases he : (bml_anchors l).isEmpty = true
      · rw [if_pos he]
        rw [show bml_anchors (⟨AnchorKind.ligature g i, pos⟩ :: l) =
              ⟨AnchorKind.ligature g i, pos⟩ :: bml_anchors l from by simp [bml_anchors]]
        rw [show bml_anchors l = [] from by simpa [List.isEmpty_iff] using he]
        rw [if_neg (by simp)]
        rfl
      · rw [if_neg he]
        rw [show bml_anchors (⟨AnchorKind.ligature g i, pos⟩ :: l) =
              ⟨AnchorKind.ligature g i, pos⟩ :: bml_anchors l from by simp [bml_anchors]]
        rw [if_neg (by simp)]
        simp only [prune_anchor_pruned]
        rw [SMap_entryModify_comp]
        congr 1
        funext v
        simp
    | other =>
      rw [show bml_anchors (⟨AnchorKind.other, pos⟩ :: l) = bml_anchors l from by
        simp [bml_anchors]]
      rfl

theorem prune_glyph_pruned_sorted (go : GlyphOrder) (incl : List String)
    (pr : SMap (List IRAnchor)) (ga : GlyphAnchors) (hs : SMapSorted pr) :
    SMapSorted (prune_glyph_pruned go incl pr ga) := by
  rw [prune_glyph_pruned_eq]
  split
  · exact prune_anchor_pruned_foldl_sorted _ _ _ hs
  · exact hs

theorem prune_fold_sorted (go : GlyphOrder) (incl : List String) :
    ∀ (l : List GlyphAnchors) (pr : SMap (List IRAnchor)),
    SMapSorted pr → SMapSorted (l.foldl (prune_glyph_pruned go incl) pr)
  | [], _, hs => hs
  | g :: l, pr, hs => by
    rw [List.foldl_cons]
    exact prune_fold_sorted go incl l _ (prune_glyph_pruned_sorted go incl pr g hs)

theorem prune_fold_get?_other (go : GlyphOrder) (incl : List String) :
    ∀ (l : List GlyphAnchors) (pr : SMap (List IRAnchor)) (k : String),
    (∀ g ∈ l, g.glyph_name ≠ k) →
    SMap.get? (l.foldl (prune_glyph_pruned go incl) pr) k = SMap.get? pr k
  | [], _, _, _ => rfl
  | g :: l, pr, k, h => by
    rw [List.foldl_cons,
      prune_fold_get?_other go incl l _ k (fun x hx => h x (List.mem_cons_of_mem _ hx))]
    rw [prune_glyph_pruned_eq]
    split
    · exact prune_anchor_pruned_foldl_other g.glyph_name k
        (h g (List.mem_cons_self _ _)) g.anchors pr
    · rfl

theorem prune_fold_get? (go : GlyphOrder) (incl : List String) :
    ∀ (l : List GlyphAnchors) (pr : SMap (List IRAnchor)) (ga : GlyphAnchors),
    ga ∈ l → (l.map (fun g => g.glyph_name)).Nodup → SMapSorted pr →
    SMap.get? pr ga.glyph_name = none →
    SMap.get? (l.foldl (prune_glyph_pruned go incl) pr) ga.glyph_name =
      (if considered_glyph go incl ga ∧ ¬ (bml_anchors ga.anchors).isEmpty
       then some (bml_anchors ga.anchors) else none)
  | [], _, ga, hmem, _, _, _ => absurd hmem (List.not_mem_nil ga)
  | g :: l, pr, ga, hmem, hnd, hs, hnone => by
    rw [List.foldl_cons]
    rcases List.mem_cons.mp hmem with heq | hmem2
    · subst heq
      have hrest : ∀ x ∈ l, x.glyph_name ≠ ga.glyph_name := by
        intro x hx he
        have : ga.glyph_name ∈ l.map (fun g => g.glyph_name) :=
          List.mem_map.mpr ⟨x, hx, he⟩
        exact (List.nodup_cons.mp hnd).1 this
      rw [prune_fold_get?_other go incl l _ _ hrest]
      rw [prune_glyph_pruned_eq]
      by_cases hc : considered_glyph go incl ga = true
      · rw [if_pos hc, prune_anchor_pruned_foldl_batch]
        by_cases he : (bml_anchors ga.anchors).isEmpty = true
        · rw [if_pos he, hnone, if_neg (by simp [he])]
        · rw [if_neg he, SMap_get?_entryModify_self _ _ _ _ hs, hnone,
            if_pos ⟨hc, he⟩]
          simp
      · rw [if_neg hc, hnone, if_neg (by simp [hc])]
    · have hne : g.glyph_name ≠ ga.glyph_name := by
        intro he
        have : ga.glyph_name ∈ l.map (fun g => g.glyph_name) :=
          List.mem_map.mpr ⟨ga, hmem2, rfl⟩
        rw [← he] at this
        exact (List.nodup_cons.mp hnd).1 this
      have hnone2 : SMap.get? (prune_glyph_pruned go incl pr g) ga.glyph_name = none := by
        rw [prune_glyph_pruned_eq]
        split
        · rw [prune_anchor_pruned_foldl_other g.glyph_name ga.glyph_name hne g.anchors pr]
          exact hnone
        · exact hnone
      exact prune_fold_get? go incl l _ ga hmem2 (List.nodup_cons.mp hnd).2
        (prune_glyph_pruned_sorted go incl pr g hs) hnone2

theorem SMap_get?_map_filter {V W : Type} (f : V → W) (p : String × W → Bool) :
    ∀ (m : SMap V) (k : String), SMapSorted m →
    SMap.get? ((m.map (fun q => (q.1, f q.2))).filter p) k =
      (SMap.get? m k).bind (fun v => if p (k, f v) then some (f v) else none)
  | [], _, _ => rfl
  | (k1, v1) :: tl, k, hs => by
    simp only [List.map_cons, List.filter_cons]
    by_cases hp : p (k1, f v1) = true
    · rw [if_pos hp]
      by_cases hk : k1 = k
      · subst hk
        simp [SMap.get?, List.find?, hp]
      · have hd1 : (decide (k1 = k)) = false := by simpa using hk
        simp only [SMap.get?, List.find?, hd1]
        exact SMap_get?_map_filter f p tl k (SMap_sorted_tail hs)
    · rw [if_neg hp]
      by_cases hk : k1 = k
      · subst hk
        have hl : SMap.get? ((tl.map (fun q => (q.1, f q.2))).filter p) k1 = none := by
          apply SMap_get?_eq_none
          intro q hq
          have hq1 := (List.mem_filter.mp hq).1
          obtain ⟨r, hr, hrq⟩ := List.mem_map.mp hq1
          intro he
          have hlt := SMap_sorted_head_lt hs r hr
          rw [show q.1 = r.1 from by rw [← hrq]] at he
          rw [he] at hlt
          exact strLt_ne hlt rfl
        rw [hl]
        simp [SMap.get?, List.find?, hp]
      · have hd1 : (decide (k1 = k)) = false := by simpa using hk
        simp only [SMap.get?, List.find?, hd1]
        exact SMap_get?_map_filter f p tl k (SMap_sorted_tail hs)

theorem kept_anchors_bml (u : List String) (l : List IRAnchor) :
    kept_anchors u (bml_anchors l) = kept_anchors u l := by
  unfold kept_anchors bml_anchors
  rw [List.filter_filter]
  apply List.filter_congr
  intro a _
  obtain ⟨kind, pos⟩ := a
  cases kind <;> simp [IRAnchor.mark_group_name]

theorem anchor_lists_eq (anchors : List GlyphAnchors) (go : GlyphOrder) (dl : Loc)
    (gdef : SMap GlyphClassDef) :
    (MarkLookupBuilder.new anchors go dl gdef).anchor_lists =
      ((anchors.foldl (prune_glyph_pruned go (include_set gdef)) []).map (fun p =>
          (p.1, kept_anchors (used_groups_spec go (include_set gdef) anchors) p.2))).filter
        (fun p => ¬ p.2.isEmpty) := by
  unfold MarkLookupBuilder.new
  simp only [prune_pass_eq]
  rfl

/-- C8: pruning in `MarkLookupBuilder::new`, amended.  A glyph is
considered only when it is in the glyph order and, when the include set
built from declared Base/Mark/Ligature gdef categories is non-empty, in
that set (categories of other kinds alone restrict nothing); for every
considered glyph, its entry in the anchor lists holds exactly its anchors
whose group occurs both among base anchors and among mark anchors of the
considered glyphs, and the entry is absent when no anchor survives;
glyphs that are not considered, or all of whose anchors fail the test,
are dropped. -/
theorem c8_anchor_pruning_amended (anchors : List GlyphAnchors) (go : GlyphOrder)
    (dl : Loc) (gdef : SMap GlyphClassDef)
    (hnd : (anchors.map (fun g => g.glyph_name)).Nodup) :
    (∀ ga ∈ anchors,
      SMap.get? (MarkLookupBuilder.new anchors go dl gdef).anchor_lists ga.glyph_name =
        (if considered_glyph go (include_set gdef) ga ∧
            ¬ (kept_anchors (used_groups_spec go (include_set gdef) anchors)
                ga.anchors).isEmpty
         then some (kept_anchors (used_groups_spec go (include_set gdef) anchors) ga.anchors)
         else none)) ∧
    (∀ k : String, (∀ ga ∈ anchors, ga.glyph_name ≠ k) →
      SMap.get? (MarkLookupBuilder.new anchors go dl gdef).anchor_lists k = none) := by
  have hsort : SMapSorted (anchors.foldl (prune_glyph_pruned go (include_set gdef)) []) :=
    prune_fold_sorted go (include_set gdef) anchors [] List.chain'_nil
  constructor
  · intro ga hga
    rw [anchor_lists_eq, SMap_get?_map_filter _ _ _ _ hsort,
      prune_fold_get? go (include_set gdef) anchors [] ga hga hnd List.chain'_nil rfl]
    by_cases hc : considered_glyph go (include_set gdef) ga = true ∧
        ¬ (bml_anchors ga.anchors).isEmpty = true
    · rw [if_pos hc]
      simp only [Option.some_bind]
      rw [kept_anchors_bml]
      by_cases hke : (kept_anchors (used_groups_spec go (include_set gdef) anchors)
          ga.anchors).isEmpty = true
      · rw [if_neg (by simp [hke]), if_neg (fun hcon => hcon.2 hke)]
      · rw [if_pos (by simp [hke]), if_pos ⟨hc.1, hke⟩]
    · rw [if_neg hc]
      simp only [Option.none_bind]
      rw [if_neg (fun hcon => hc ⟨hcon.1, fun hbml => hcon.2 (by
        rw [← kept_anchors_bml (used_groups_spec go (include_set gdef) anchors) ga.anchors,
          show bml_anchors ga.anchors = [] from by simpa [List.isEmpty_iff] using hbml]
        rfl)⟩)]
  · intro k hk
    rw [anchor_lists_eq, SMap_get?_map_filter _ _ _ _ hsort,
      prune_fold_get?_other go (include_set gdef) anchors [] k hk]
    rfl

/-- A closed instance of the C8 pruning characterization: the stray mark
glyph is dropped from the anchor lists, while the plain base glyph keeps
its anchor. -/
theorem c8_anchor_pruning_amended_witness :
    SMap.get? (MarkLookupBuilder.new c8w_anchors c8w_order "m1" []).anchor_lists "stray" =
      none ∧
    SMap.get? (MarkLookupBuilder.new c8w_anchors c8w_order "m1" []).anchor_lists "A" =
      some [⟨AnchorKind.base "top", []⟩] :=
  ⟨((c8_anchor_pruning_amended c8w_anchors c8w_order "m1" [] (by decide)).1
      ⟨"stray", [⟨AnchorKind.mark "bottom", []⟩]⟩ (by decide)).trans (by decide),
   ((c8_anchor_pruning_amended c8w_anchors c8w_order "m1" [] (by decide)).1
      ⟨"A", [⟨AnchorKind.base "top", []⟩]⟩ (by decide)).trans (by decide)⟩

theorem collect_marks_skip_cls (b ix : Nat) (mr : NMarkRecord) (rest : List NMarkRecord)
    (seen : NSeen) (h1 : ¬ mr.cls = ix) :
    collect_marks b ix (mr :: rest) seen = collect_marks b ix rest seen := by
  simp [collect_marks, h1]

theorem collect_marks_skip_seen (b ix : Nat) (mr : NMarkRecord) (rest : List NMarkRecord)
    (seen : NSeen) (h1 : mr.cls = ix) (h2 : (b, mr.gid) ∈ seen) :
    collect_marks b ix (mr :: rest) seen = collect_marks b ix rest seen := by
  simp [collect_marks, h1, h2]

theorem collect_marks_new (b ix : Nat) (mr : NMarkRecord) (rest : List NMarkRecord)
    (seen : NSeen) (h1 : mr.cls = ix) (h2 : (b, mr.gid) ∉ seen) :
    collect_marks b ix (mr :: rest) seen =
      ((mr.anchor, mr.gid) :: (collect_marks b ix rest ((b, mr.gid) :: seen)).1,
       (collect_marks b ix rest ((b, mr.gid) :: seen)).2) := by
  simp [collect_marks, h1, h2]

theorem mark_realized_cons (mr : NMarkRecord) (rest : List NMarkRecord) (ix m : Nat) :
    mark_realized (mr :: rest) ix m =
      ((decide (mr.cls = ix) && decide (mr.gid = m)) || mark_realized rest ix m) := by
  simp [mark_realized, List.any_cons, Bool.decide_and]

theorem collect_marks_seen (b ix : Nat) :
    ∀ (marks : List NMarkRecord) (seen : NSeen) (p : Nat × Nat),
    (p ∈ (collect_marks b ix marks seen).2 ↔
      p ∈ seen ∨ (p.1 = b ∧ mark_realized marks ix p.2 = true))
  | [], seen, p => by simp [collect_marks, mark_realized]
  | mr :: rest, seen, p => by
    obtain ⟨p1, p2⟩ := p
    by_cases h1 : mr.cls = ix
    · by_cases h2 : (b, mr.gid) ∈ seen
      · rw [collect_marks_skip_seen b ix mr rest seen h1 h2,
          collect_marks_seen b ix rest seen (p1, p2), mark_realized_cons]
        constructor
        · rintro (hs | ⟨hb, hr⟩)
          · exact Or.inl hs
          · refine Or.inr ⟨hb, ?_⟩
            simp [hr]
        · rintro (hs | ⟨hb, hr⟩)
          · exact Or.inl hs
          · rcases Bool.or_eq_true_iff.mp hr with hx | hx
            · refine Or.inl ?_
              have hg : mr.gid = p2 := by simpa using (Bool.and_eq_true_iff.mp hx).2
              subst hb
              rw [← hg]
              exact h2
            · exact Or.inr ⟨hb, hx⟩
      · rw [collect_marks_new b ix mr rest seen h1 h2]
        simp only
        rw [collect_marks_seen b ix rest ((b, mr.gid) :: seen) (p1, p2), mark_realized_cons]
        simp only [List.mem_cons]
        constructor
        · rintro ((hp | hs) | ⟨hb, hr⟩)
          · rw [Prod.mk.injEq] at hp
            refine Or.inr ⟨hp.1, ?_⟩
            simp [h1, ← hp.2]
          · exact Or.inl hs
          · refine Or.inr ⟨hb, ?_⟩
            simp [hr]
        · rintro (hs | ⟨hb, hr⟩)
          · exact Or.inl (Or.inr hs)
          · rcases Bool.or_eq_true_iff.mp hr with hx | hx
            · refine Or.inl (Or.inl ?_)
              have hg : mr.gid = p2 := by simpa using (Bool.and_eq_true_iff.mp hx).2
              rw [Prod.mk.injEq]
              exact ⟨hb, hg.symm⟩
            · exact Or.inr ⟨hb, hx⟩
    · rw [collect_marks_skip_cls b ix mr rest seen h1,
        collect_marks_seen b ix rest seen (p1, p2), mark_realized_cons]
      simp [h1]

theorem collect_marks_count (b ix : Nat) :
    ∀ (marks : List NMarkRecord) (seen : NSeen) (m : Nat),
    ((((collect_marks b ix marks seen).1.filter (fun e => e.2 = m)).length) =
      if mark_realized marks ix m = true ∧ (b, m) ∉ seen then 1 else 0)
  | [], seen, m => by simp [collect_marks, mark_realized]
  | mr :: rest, seen, m => by
    by_cases h1 : mr.cls = ix
    · by_cases h2 : (b, mr.gid) ∈ seen
      · rw [collect_marks_skip_seen b ix mr rest seen h1 h2,
          collect_marks_count b ix rest seen m, mark_realized_cons]
        by_cases hm : mr.gid = m
        · rw [if_neg (by rw [← hm]; exact fun hc => hc.2 h2),
            if_neg (by rw [← hm]; exact fun hc => hc.2 h2)]
        · have : ((decide (mr.cls = ix) && decide (mr.gid = m)) || mark_realized rest ix m)
              = mark_realized rest ix m := by simp [hm]
          rw [this]
      · rw [collect_marks_new b ix mr rest seen h1 h2]
        simp only [List.filter_cons]
        by_cases hm : mr.gid = m
        · rw [if_pos (by simpa using hm)]
          simp only [List.length_cons]
          rw [collect_marks_count b ix rest ((b, mr.gid) :: seen) m]
          rw [if_neg (fun hc => hc.2 (by rw [← hm]; exact List.mem_cons_self _ _))]
          rw [if_pos ⟨by rw [mark_realized_cons]; simp [h1, hm], by rw [← hm]; exact h2⟩]
        · rw [if_neg (by simpa using hm)]
          rw [collect_marks_count b ix rest ((b, mr.gid) :: seen) m, mark_realized_cons]
          have hs : ((b, m) ∈ (b, mr.gid) :: seen) ↔ (b, m) ∈ seen := by
            simp only [List.mem_cons]
            constructor
            · rintro (hp | hp)
              · exact absurd (by simpa [Prod.mk.injEq] using hp : m = mr.gid)
                  (fun e => hm e.symm)
              · exact hp
            · exact fun hp => Or.inr hp
          have hr : ((decide (mr.cls = ix) && decide (mr.gid = m)) || mark_realized rest ix m)
              = mark_realized rest ix m := by simp [hm]
          rw [hr]
          by_cases hR : mark_realized rest ix m = true
          · by_cases hS : (b, m) ∈ seen
            · rw [if_neg (fun hc => hc.2 (hs.mpr hS)), if_neg (fun hc => hc.2 hS)]
            · rw [if_pos ⟨hR, fun hc => hS (hs.mp hc)⟩, if_pos ⟨hR, hS⟩]
          · rw [if_neg (fun hc => hR hc.1), if_neg (fun hc => hR hc.1)]
    · rw [collect_marks_skip_cls b ix mr rest seen h1,
        collect_marks_count b ix rest seen m, mark_realized_cons]
      have : ((decide (mr.cls = ix) && decide (mr.gid = m)) || mark_realized rest ix m)
          = mark_realized rest ix m := by simp [h1]
      rw [this]

theorem pair_count_cons (r : NRule) (rs : List NRule) (b m : Nat) :
    pair_count (r :: rs) b m = r.pair_count b m + pair_count rs b m := by
  simp [pair_count]

theorem pair_count_append (rs1 rs2 : List NRule) (b m : Nat) :
    pair_count (rs1 ++ rs2) b m = pair_count rs1 b m + pair_count rs2 b m := by
  simp [pair_count]

theorem pair_count_ne (rs : List NRule) (b bq m : Nat) (hb : ∀ r ∈ rs, r.base = b)
    (hne : bq ≠ b) : pair_count rs bq m = 0 := by
  induction rs with
  | nil => rfl
  | cons r rest ih =>
    rw [pair_count_cons]
    rw [show r.pair_count bq m = 0 from by
      unfold NRule.pair_count
      rw [if_neg (by rw [hb r (List.mem_cons_self _ _)]; exact fun e => hne e.symm)]]
    rw [ih (fun x hx => hb x (List.mem_cons_of_mem _ hx))]

theorem process_anchors_some (kind : NLookupType) (fs : Option Nat)
    (marks : List NMarkRecord) (b : Nat) (a : Int × Int)
    (rest : List (Option (Int × Int))) (ix : Nat) (seen : NSeen) :
    process_anchors kind fs marks b (some a :: rest) ix seen =
      (({ kind := kind, base := b, base_anchor := a,
          marks := (collect_marks b ix marks seen).1, filter_set := fs } : NRule) ::
        (process_anchors kind fs marks b rest (ix + 1) (collect_marks b ix marks seen).2).1,
       (process_anchors kind fs marks b rest (ix + 1) (collect_marks b ix marks seen).2).2) := by
  simp [process_anchors]

theorem process_anchors_seen (kind : NLookupType) (fs : Option Nat)
    (marks : List NMarkRecord) (b : Nat) :
    ∀ (anchors : List (Option (Int × Int))) (ix : Nat) (seen : NSeen) (p : Nat × Nat),
    (p ∈ (process_anchors kind fs marks b anchors ix seen).2 ↔
      p ∈ seen ∨ (p.1 = b ∧ anchors_realize marks p.2 anchors ix = true))
  | [], ix, seen, p => by simp [process_anchors, anchors_realize]
  | none :: rest, ix, seen, p => by
    rw [show process_anchors kind fs marks b (none :: rest) ix seen =
        process_anchors kind fs marks b rest (ix + 1) seen from rfl]
    rw [process_anchors_seen kind fs marks b rest (ix + 1) seen p]
    rfl
  | some a :: rest, ix, seen, p => by
    rw [process_anchors_some]
    simp only
    rw [process_anchors_seen kind fs marks b rest (ix + 1) (collect_marks b ix marks seen).2 p]
    rw [collect_marks_seen b ix marks seen p]
    rw [show anchors_realize marks p.2 (some a :: rest) ix =
        (mark_realized marks ix p.2 || anchors_realize marks p.2 rest (ix + 1)) from rfl]
    simp only [Bool.or_eq_true]
    tauto

theorem process_anchors_base (kind : NLookupType) (fs : Option Nat)
    (marks : List NMarkRecord) (b : Nat) :
    ∀ (anchors : List (Option (Int × Int))) (ix : Nat) (seen : NSeen) (r : NRule),
    r ∈ (process_anchors kind fs marks b anchors ix seen).1 → r.base = b
  | [], _, _, r => by simp [process_anchors]
  | none :: rest, ix, seen, r => fun h =>
    process_anchors_base kind fs marks b rest (ix + 1) seen r h
  | some a :: rest, ix, seen, r => by
    rw [process_anchors_some]
    simp only [List.mem_cons]
    rintro (rfl | h)
    · rfl
    · exact process_anchors_base kind fs marks b rest (ix + 1) _ r h

theorem process_anchors_count (kind : NLookupType) (fs : Option Nat)
    (marks : List NMarkRecord) (b : Nat) :
    ∀ (anchors : List (Option (Int × Int))) (ix : Nat) (seen : NSeen) (m : Nat),
    pair_count (process_anchors kind fs marks b anchors ix seen).1 b m =
      if anchors_realize marks m anchors ix = true ∧ (b, m) ∉ seen then 1 else 0
  | [], ix, seen, m => by simp [process_anchors, anchors_realize, pair_count]
  | none :: rest, ix, seen, m =>
    process_anchors_count kind fs marks b rest (ix + 1) seen m
  | some a :: rest, ix, seen, m => by
    rw [process_anchors_some, pair_count_cons,
      process_anchors_count kind fs marks b rest (ix + 1) (collect_marks b ix marks seen).2 m]
    have h1 : (⟨kind, b, a, (collect_marks b ix marks seen).1, fs⟩ : NRule).pair_count b m =
        if mark_realized marks ix m = true ∧ (b, m) ∉ seen then 1 else 0 := by
      unfold NRule.pair_count
      rw [if_pos rfl]
      exact collect_marks_count b ix marks seen m
    rw [h1]
    have h2 : ((b, m) ∈ (collect_marks b ix marks seen).2) ↔
        ((b, m) ∈ seen ∨ mark_realized marks ix m = true) := by
      rw [collect_marks_seen b ix marks seen (b, m)]
      simp
    rw [show anchors_realize marks m (some a :: rest) ix =
        (mark_realized marks ix m || anchors_realize marks m rest (ix + 1)) from rfl]
    by_cases hM : mark_realized marks ix m = true
    · by_cases hS : (b, m) ∈ seen
      · rw [if_neg (fun hc => hc.2 hS), if_neg (fun hc => hc.2 (h2.mpr (Or.inl hS))),
          if_neg (fun hc => hc.2 hS)]
      · rw [if_pos ⟨hM, hS⟩, if_neg (fun hc => hc.2 (h2.mpr (Or.inr hM))),
          if_pos ⟨by simp [hM], hS⟩]
    · rw [if_neg (fun hc => hM hc.1)]
      rw [show (mark_realized marks ix m || anchors_realize marks m rest (ix + 1))
          = anchors_realize marks m rest (ix + 1) from by
        rw [Bool.eq_false_iff.mpr hM, Bool.false_or]]
      have h4 : ((b, m) ∈ (collect_marks b ix marks seen).2) ↔ (b, m) ∈ seen := by
        rw [h2]
        constructor
        · rintro (h | h)
          · exact h
          · exact absurd h hM
        · exact Or.inl
      by_cases hS : (b, m) ∈ seen
      · rw [if_neg (fun hc => hc.2 (h4.mpr hS)), if_neg (fun hc => hc.2 hS)]
      · by_cases hR : anchors_realize marks m rest (ix + 1) = true
        · rw [if_pos ⟨hR, fun hc => hS (h4.mp hc)⟩, if_pos ⟨hR, hS⟩]
        · rw [if_neg (fun hc => hR hc.1), if_neg (fun hc => hR hc.1)]

theorem append_mark_rules_cons (kind : NLookupType) (fs : Option Nat) (sub : NSubtable)
    (br : NBaseRecord) (rest : List NBaseRecord) (seen : NSeen) :
    append_mark_rules kind fs sub (br :: rest) seen =
      ((process_anchors kind fs sub.marks br.gid br.anchors 0 seen).1 ++
        (append_mark_rules kind fs sub rest
          (process_anchors kind fs sub.marks br.gid br.anchors 0 seen).2).1,
       (append_mark_rules kind fs sub rest
          (process_anchors kind fs sub.marks br.gid br.anchors 0 seen).2).2) := by
  simp [append_mark_rules]

theorem append_mark_rules_seen (kind : NLookupType) (fs : Option Nat) (sub : NSubtable) :
    ∀ (bases : List NBaseRecord) (seen : NSeen) (p : Nat × Nat),
    (p ∈ (append_mark_rules kind fs sub bases seen).2 ↔
      p ∈ seen ∨ bases_realize sub.marks p.1 p.2 bases = true)
  | [], seen, p => by simp [append_mark_rules, bases_realize]
  | br :: rest, seen, p => by
    rw [append_mark_rules_cons]
    simp only
    rw [append_mark_rules_seen kind fs sub rest _ p,
      process_anchors_seen kind fs sub.marks br.gid br.anchors 0 seen p]
    rw [show bases_realize sub.marks p.1 p.2 (br :: rest) =
        ((decide (br.gid = p.1) && anchors_realize sub.marks p.2 br.anchors 0) ||
          bases_realize sub.marks p.1 p.2 rest) from rfl]
    simp only [Bool.or_eq_true, Bool.and_eq_true, decide_eq_true_eq]
    constructor
    · rintro ((hs | ⟨hb, ha⟩) | hr)
      · exact Or.inl hs
      · exact Or.inr (Or.inl ⟨hb.symm, ha⟩)
      · exact Or.inr (Or.inr hr)
    · rintro (hs | (⟨hb, ha⟩ | hr))
      · exact Or.inl (Or.inl hs)
      · exact Or.inl (Or.inr ⟨hb.symm, ha⟩)
      · exact Or.inr hr

theorem append_mark_rules_count (kind : NLookupType) (fs : Option Nat) (sub : NSubtable) :
    ∀ (bases : List NBaseRecord) (seen : NSeen) (b m : Nat),
    pair_count (append_mark_rules kind fs sub bases seen).1 b m =
      if bases_realize sub.marks b m bases = true ∧ (b, m) ∉ seen then 1 else 0
  | [], seen, b, m => by simp [append_mark_rules, bases_realize, pair_count]
  | br :: rest, seen, b, m => by
    rw [append_mark_rules_cons]
    simp only
    rw [pair_count_append, append_mark_rules_count kind fs sub rest _ b m]
    have hseen : ((b, m) ∈ (process_anchors kind fs sub.marks br.gid br.anchors 0 seen).2) ↔
        ((b, m) ∈ seen ∨ (b = br.gid ∧ anchors_realize sub.marks m br.anchors 0 = true)) :=
      process_anchors_seen kind fs sub.marks br.gid br.anchors 0 seen (b, m)
    rw [show bases_realize sub.marks b m (br :: rest) =
        ((decide (br.gid = b) && anchors_realize sub.marks m br.anchors 0) ||
          bases_realize sub.marks b m rest) from rfl]
    by_cases hb : b = br.gid
    · subst hb
      rw [process_anchors_count kind fs sub.marks br.gid br.anchors 0 seen m]
      rw [show (decide (br.gid = br.gid)) = true from by simp, Bool.true_and]
      by_cases hA : anchors_realize sub.marks m br.anchors 0 = true
      · by_cases hS : (br.gid, m) ∈ seen
        · rw [if_neg (fun hc => hc.2 hS), if_neg (fun hc => hc.2 (hseen.mpr (Or.inl hS))),
            if_neg (fun hc => hc.2 hS)]
        · rw [if_pos ⟨hA, hS⟩, if_neg (fun hc => hc.2 (hseen.mpr (Or.inr ⟨rfl, hA⟩))),
            if_pos ⟨by simp [hA], hS⟩]
      · rw [if_neg (fun hc => hA hc.1)]
        rw [show (anchors_realize sub.marks m br.anchors 0 ||
              bases_realize sub.marks br.gid m rest)
            = bases_realize sub.marks br.gid m rest from by
          rw [Bool.eq_false_iff.mpr hA, Bool.false_or]]
        have h4 : ((br.gid, m) ∈ (process_anchors kind fs sub.marks br.gid br.anchors
              0 seen).2) ↔ (br.gid, m) ∈ seen := by
          rw [hseen]
          constructor
          · rintro (h | ⟨_, h⟩)
            · exact h
            · exact absurd h hA
          · exact Or.inl
        by_cases hS : (br.gid, m) ∈ seen
        · rw [if_neg (fun hc => hc.2 (h4.mpr hS)), if_neg (fun hc => hc.2 hS)]
        · by_cases hR : bases_realize sub.marks br.gid m rest = true
          · rw [if_pos ⟨hR, fun hc => hS (h4.mp hc)⟩, if_pos ⟨hR, hS⟩]
          · rw [if_neg (fun hc => hR hc.1), if_neg (fun hc => hR hc.1)]
    · rw [pair_count_ne (process_anchors kind fs sub.marks br.gid br.anchors 0 seen).1
        br.gid b m (fun r hr => process_anchors_base kind fs sub.marks br.gid br.anchors
          0 seen r hr) hb]
      rw [show (decide (br.gid = b)) = false from by
        simpa using fun e => hb e.symm, Bool.false_and, Bool.false_or]
      have h4 : ((b, m) ∈ (process_anchors kind fs sub.marks br.gid br.anchors 0 seen).2) ↔
          (b, m) ∈ seen := by
        rw [hseen]
        constructor
        · rintro (h | ⟨h, _⟩)
          · exact h
          · exact absurd h hb
        · exact Or.inl
      by_cases hS : (b, m) ∈ seen
      · rw [if_neg (fun hc => hc.2 (h4.mpr hS)), if_neg (fun hc => hc.2 hS)]
      · by_cases hR : bases_realize sub.marks b m rest = true
        · rw [if_pos ⟨hR, fun hc => hS (h4.mp hc)⟩, if_pos ⟨hR, hS⟩]
        · rw [if_neg (fun hc => hR hc.1), if_neg (fun hc => hR hc.1)]

theorem subtable_outputs_cons (kind : NLookupType) (fs : Option Nat) (sub : NSubtable)
    (rest : List NSubtable) (seen : NSeen) :
    subtable_outputs kind fs (sub :: rest) seen =
      (append_mark_rules kind fs sub sub.bases seen).1 ::
        subtable_outputs kind fs rest (append_mark_rules kind fs sub sub.bases seen).2 := by
  simp [subtable_outputs]

theorem get_rules_loop_flatten (kind : NLookupType) (fs : Option Nat) :
    ∀ (subs : List NSubtable) (seen : NSeen),
    (get_rules_loop kind fs subs seen).1 = (subtable_outputs kind fs subs seen).flatten
  | [], _ => rfl
  | sub :: rest, seen => by
    rw [show (get_rules_loop kind fs (sub :: rest) seen).1 =
        (append_mark_rules kind fs sub sub.bases seen).1 ++
          (get_rules_loop kind fs rest
            (append_mark_rules kind fs sub sub.bases seen).2).1 from rfl]
    rw [subtable_outputs_cons, List.flatten_cons, get_rules_loop_flatten kind fs rest _]

theorem subtable_outputs_count (kind : NLookupType) (fs : Option Nat) :
    ∀ (subs : List NSubtable) (seen : NSeen) (i b m : Nat),
    pair_count ((subtable_outputs kind fs subs seen).getD i []) b m =
      if covers_pair (subs.getD i ⟨[], []⟩) b m = true ∧ (b, m) ∉ seen ∧
          (∀ j, j < i → ¬ covers_pair (subs.getD j ⟨[], []⟩) b m = true)
      then 1 else 0
  | [], seen, i, b, m => by
    rw [show subtable_outputs kind fs [] seen = [] from rfl]
    rw [show (([] : List (List NRule)).getD i []) = [] from by simp [List.getD]]
    rw [show (([] : List NSubtable).getD i ⟨[], []⟩) = ⟨[], []⟩ from by simp [List.getD]]
    rw [show covers_pair (⟨[], []⟩ : NSubtable) b m = false from rfl]
    rw [if_neg (fun hc => by cases hc.1)]
    rfl
  | sub :: rest, seen, i, b, m => by
    rw [subtable_outputs_cons]
    have hseen : ((b, m) ∈ (append_mark_rules kind fs sub sub.bases seen).2) ↔
        ((b, m) ∈ seen ∨ covers_pair sub b m = true) :=
      append_mark_rules_seen kind fs sub sub.bases seen (b, m)
    cases i with
    | zero =>
      simp only [List.getD_cons_zero]
      rw [append_mark_rules_count kind fs sub sub.bases seen b m]
      refine if_congr ?_ rfl rfl
      constructor
      · rintro ⟨hc, hs⟩
        exact ⟨hc, hs, fun j hj => absurd hj (Nat.not_lt_zero j)⟩
      · rintro ⟨hc, hs, _⟩
        exact ⟨hc, hs⟩
    | succ i2 =>
      simp only [List.getD_cons_succ]
      rw [subtable_outputs_count kind fs rest _ i2 b m]
      refine if_congr ?_ rfl rfl
      constructor
      · rintro ⟨hc, hs2, hall⟩
        have hns : (b, m) ∉ seen := fun hx => hs2 (hseen.mpr (Or.inl hx))
        have hnc : ¬ covers_pair sub b m = true := fun hx => hs2 (hseen.mpr (Or.inr hx))
        refine ⟨hc, hns, ?_⟩
        intro j hj
        cases j with
        | zero => simpa only [List.getD_cons_zero] using hnc
        | succ j2 =>
          simp only [List.getD_cons_succ]
          exact hall j2 (by omega)
      · rintro ⟨hc, hns, hall⟩
        have hnc : ¬ covers_pair sub b m = true := by
          simpa only [List.getD_cons_zero] using hall 0 (Nat.succ_pos i2)
        refine ⟨hc, ?_, ?_⟩
        · intro hx
          rcases hseen.mp hx with h | h
          · exact hns h
          · exact hnc h
        · intro j2 hj
          simpa only [List.getD_cons_succ] using hall (j2 + 1) (by omega)

/-- C1: the per-lookup seen-set makes the first covering subtable win.
The rules of a mark-attachment lookup are the concatenation of the
per-subtable outputs, and the output of the subtable at index `i`
attaches the pair `(b, m)` exactly once when that subtable covers the
pair and no earlier subtable covers it, and never otherwise: exactly one
subtable, the first covering one, contributes each realized pair. -/
theorem c1_first_subtable_wins (kind : NLookupType) (fs : Option Nat)
    (subs : List NSubtable) :
    get_mark_attachment_rules kind fs subs = (subtable_outputs kind fs subs []).flatten ∧
    ∀ i b m : Nat,
      pair_count ((subtable_outputs kind fs subs []).getD i []) b m =
        (if covers_pair (subs.getD i ⟨[], []⟩) b m = true ∧
            no_earlier_cover subs i b m = true
         then 1 else 0) := by
  constructor
  · exact get_rules_loop_flatten kind fs subs []
  · intro i b m
    rw [subtable_outputs_count kind fs subs [] i b m]
    refine if_congr ?_ rfl rfl
    have hne : (no_earlier_cover subs i b m = true) ↔
        (∀ j, j < i → ¬ covers_pair (subs.getD j ⟨[], []⟩) b m = true) := by
      simp [no_earlier_cover, List.all_eq_true, List.mem_range]
    rw [hne]
    simp [List.not_mem_nil]

end Fontc
